import Mathlib

/-!
Verification development for the track-selection and mux command-generation
core of the `spgill.utils.media` package (`info.py`, `mux.py`).

The Python source is shallowly embedded: tracks and containers become plain
structures, Python dicts (whose iteration order is insertion order) become
association lists with insertion-order preserving operations, fallible code
returns `Except`, and the dynamic `eval` of selector expressions becomes an
explicit evaluation-environment parameter mapping expression text and a track
to an outcome (raised / non-boolean / boolean).
-/

namespace SpgillMedia

/-- `info.TrackType`: base types of a track. -/
inductive TrackType
  | video
  | audio
  | subtitle
  | attachment
deriving DecidableEq, Repr

/-- `info.TrackFlags`: boolean disposition flags of a track. -/
structure TrackFlags where
  default : Bool
  forced : Bool
  hearing_impaired : Bool
  visual_impaired : Bool
  text_descriptions : Bool
  original_language : Bool
  commentary : Bool
deriving DecidableEq, Repr

/-- Identity of a parent `info.Container` as seen by a track back-reference:
containers are compared by identity/filename when used as dict keys. -/
structure ContainerRef where
  cid : Nat
  filename : String
deriving DecidableEq, Repr

/-- `info.Track`: the attributes of a probed track that the selector engine and
the mux command generator read.  `container` is the back-reference installed by
`Container.open` (`None` when the track is unbound). -/
structure Track where
  index : Nat
  type : TrackType
  codec_name : Option String
  profile : Option String
  language : Option String
  name : Option String
  flags : TrackFlags
  container : Option ContainerRef
deriving DecidableEq, Repr

/-- Python `str.lower()` (ASCII range suffices for the embedded strings). -/
def pyLower (s : String) : String :=
  String.mk (s.toList.map Char.toLower)

/-- Whether `needle` occurs at the head of `hay`. -/
def charsStartWith : List Char → List Char → Bool
  | [], _ => true
  | _ :: _, [] => false
  | n :: ns, h :: hs => n == h && charsStartWith ns hs

/-- Whether `needle` occurs contiguously anywhere in `hay`. -/
def charsContain (needle : List Char) : List Char → Bool
  | [] => needle.isEmpty
  | h :: hs => charsStartWith needle (h :: hs) || charsContain needle hs

/-- Python `needle in hay` on strings: substring containment. -/
def pyContains (hay needle : String) : Bool :=
  charsContain needle.toList hay.toList

/-- Python `str.split(sep)` on a single-character separator, as a function on
character lists: keeps empty chunks, `"".split(sep) == [""]`. -/
def pySplitChar (sep : Char) : List Char → List (List Char)
  | [] => [[]]
  | c :: rest =>
    match pySplitChar sep rest with
    | [] => [[]]
    | h :: t => if c = sep then [] :: h :: t else (c :: h) :: t

/-- Fold a digit list into a natural number. -/
def digitsToNat (cs : List Char) : Nat :=
  cs.foldl (fun n c => n * 10 + (c.toNat - 48)) 0

/-- Parse a non-empty, all-digit character list. -/
def parseDigits (cs : List Char) : Option Nat :=
  if cs = [] then none
  else if cs.all Char.isDigit then some (digitsToNat cs) else none

/-- Python `int(s)` restricted to the shapes reachable behind the index-list
regex: an optional leading minus sign followed by one or more digits; anything
else raises `ValueError` (returns `none`). -/
def pyParseInt (cs : List Char) : Option Int :=
  match cs with
  | '-' :: rest => (parseDigits rest).map (fun n => -(n : Int))
  | _ => (parseDigits cs).map (fun n => (n : Int))

/-- Effective bound of a Python slice endpoint for a list of length `n`
(step 1): missing endpoints default to the ends, negative endpoints wrap,
and everything is clamped into `[0, n]`. -/
def pySliceBound (n : Nat) (isStart : Bool) : Option Int → Nat
  | none => if isStart then 0 else n
  | some i => if i < 0 then Int.toNat (i + n) else min (Int.toNat i) n

/-- Python `l[start:end]` (step 1). -/
def pySlice {α : Type} (l : List α) (start stop : Option Int) : List α :=
  let s := pySliceBound l.length true start
  let e := pySliceBound l.length false stop
  (l.drop s).take (e - s)

/-- Python `l[i]` for a possibly negative integer index: `none` models the
`IndexError` raised when the (wrapped) index is out of range. -/
def pyIndex {α : Type} (l : List α) (i : Int) : Option α :=
  let j : Int := if i < 0 then i + l.length else i
  if j < 0 then none else l.get? j.toNat

/-- Errors surfaced by `Container.select_tracks_from_list`:
`RuntimeError` with a message, the `ValueError` escaping from `int(...)` or
tuple unpacking, and the `IndexError` escaping from a bare list index. -/
inductive SelectError
  | runtimeError (msg : String)
  | valueError
  | indexError
deriving DecidableEq, Repr

/-- The message of the `RuntimeError` raised when evaluating a selector
expression raises an exception. -/
def evalExceptionMessage (e : String) : String :=
  "Exception encountered while evaluating selector expression \x27" ++ e ++
    "\x27. Re-examine your selector syntax."

/-- The message of the `RuntimeError` raised when a selector expression
evaluates to a non-boolean value. -/
def evalNonBooleanMessage (e : String) : String :=
  "Return type of selector expression \x27" ++ e ++
    "\x27 was not boolean. Re-examine your selector syntax."

/-- Outcome of Python `eval(expression, None, track.get_selector_values())`:
the evaluation may raise, return a non-boolean value, or return a boolean. -/
inductive ExprResult
  | raised
  | nonBool
  | boolean (b : Bool)
deriving DecidableEq, Repr

/-- An evaluation environment: what Python `eval` returns for a given
expression text against a given track's selector values. -/
abbrev ExprEval := String → Track → ExprResult

/-- `get_selector_values()["isVideo"]`. -/
def selectorIsVideo (t : Track) : Bool :=
  decide (t.type = TrackType.video)

/-- `get_selector_values()["isAudio"]`. -/
def selectorIsAudio (t : Track) : Bool :=
  decide (t.type = TrackType.audio)

/-- `get_selector_values()["isSubtitle"]`. -/
def selectorIsSubtitle (t : Track) : Bool :=
  decide (t.type = TrackType.subtitle)

/-- `get_selector_values()["isEnglish"]`: `(language or "").lower()` in
`["en", "eng"]`. -/
def selectorIsEnglish (t : Track) : Bool :=
  let l := pyLower (t.language.getD "")
  (l == "en") || (l == "eng")

/-- Concrete evaluation environment for the expression strings exercised in
this development, following `Track.get_selector_values` for the defined
variables.  A lone defined variable evaluates to its value (`index` is an
`int`, hence non-boolean); an undefined name raises `NameError`. -/
def pythonEval : ExprEval := fun e t =>
  if e = "isVideo" then ExprResult.boolean (selectorIsVideo t)
  else if e = "isAudio" then ExprResult.boolean (selectorIsAudio t)
  else if e = "isSubtitle" then ExprResult.boolean (selectorIsSubtitle t)
  else if e = "isEnglish" then ExprResult.boolean (selectorIsEnglish t)
  else if e = "isDefault" then ExprResult.boolean t.flags.default
  else if e = "isForced" then ExprResult.boolean t.flags.forced
  else if e = "index" then ExprResult.nonBool
  else if e = "lang" then ExprResult.nonBool
  else ExprResult.raised

/-!
## The index/slice-list recognizer

`_comma_delim_nos_pattern` is
`^(?:(?:(?<!^),)?(?:[vas]?(?:-?\d+)?(?:(?<=\d)\:|\:(?=-?\d))(?:-?\d+)?|[vas]?-?\d+))+$`:
one or more items, each optionally preceded by a comma (never at the start).
An item is an optional type letter followed by either a signed integer, or an
optional signed integer, a colon admissible by its lookaround (preceded by a
digit or followed by an optionally-signed digit), and an optional signed
integer.  Since no item contains a comma and the lookarounds never cross one,
the whole string matches exactly when every comma-separated chunk is a
non-empty concatenation of items; the matcher below enumerates the
backtracking item parses, threading the character preceding the current
position for the lookbehind.
-/

/-- All ways to consume a non-empty prefix of leading digits: each result is
the last digit consumed paired with the remaining suffix. -/
def digitSplits : List Char → List (Char × List Char)
  | [] => []
  | c :: rest => if c.isDigit then (c, rest) :: digitSplits rest else []

/-- All parses of `-?\d+` at the head of `cs`. -/
def signedIntParses (cs : List Char) : List (Char × List Char) :=
  match cs with
  | '-' :: rest => digitSplits rest
  | _ => digitSplits cs

/-- All parses of one regex item (with no leading type letter) starting at
`cs`, where `prev` is the character immediately before `cs` (for the colon's
lookbehind).  Results pair the last consumed character with the suffix. -/
def itemParsesAfterLetter (prev : Option Char) (cs : List Char) :
    List (Char × List Char) :=
  let alt2 := signedIntParses cs
  let leftOptions : List (Option Char × List Char) :=
    (none, cs) :: (signedIntParses cs).map (fun p => (some p.1, p.2))
  let alt1 := leftOptions.flatMap (fun lp =>
    match lp.2 with
    | ':' :: rest2 =>
      let lookbehindOk := match lp.1 with
        | some c => c.isDigit
        | none => match prev with
          | some c => c.isDigit
          | none => false
      let lookaheadOk := match rest2 with
        | '-' :: c :: _ => c.isDigit
        | c :: _ => c.isDigit
        | [] => false
      if lookbehindOk || lookaheadOk then
        (':', rest2) :: signedIntParses rest2
      else []
    | _ => [])
  alt2 ++ alt1

/-- All parses of one regex item starting at `cs` (optional `[vas]` letter
first). -/
def itemParses (prev : Option Char) (cs : List Char) : List (Char × List Char) :=
  match cs with
  | c :: rest =>
    if c = 'v' ∨ c = 'a' ∨ c = 's' then
      itemParsesAfterLetter prev cs ++ itemParsesAfterLetter (some c) rest
    else itemParsesAfterLetter prev cs
  | [] => []

/-- Whether `cs` is a concatenation of one or more regex items.  Every item
consumes at least one character, so `cs.length + 1` fuel suffices. -/
def fragmentChunkMatches (fuel : Nat) (prev : Option Char) (cs : List Char) :
    Bool :=
  match fuel with
  | 0 => false
  | fuel + 1 =>
    (itemParses prev cs).any (fun p =>
      match p.2 with
      | [] => true
      | _ => fragmentChunkMatches fuel (some p.1) p.2)

/-- `_comma_delim_nos_pattern.match(selector)` as a decidable check. -/
def commaPatternMatches (selector : String) : Bool :=
  let fragments := pySplitChar ',' selector.toList
  fragments.all (fun f => !f.isEmpty && fragmentChunkMatches (f.length + 1) none f)

/-!
## The index/slice-list selection path
-/

/-- `_index_with_type_pattern`: strip an optional leading `v`/`a`/`s` letter
off a fragment. -/
def splitTypeLetter (cs : List Char) : Option Char × List Char :=
  match cs with
  | c :: rest => if c = 'v' ∨ c = 'a' ∨ c = 's' then (some c, rest) else (none, cs)
  | [] => (none, [])

/-- The grouped sub-list of tracks of one type, in their input order (the
source builds `grouped_tracks` in one pass; attachments are in no group). -/
def groupedOfType (track_list : List Track) (tt : TrackType) : List Track :=
  track_list.filter (fun t => t.type == tt)

/-- The list a type-prefixed fragment indexes into: the type's sub-list when a
letter is present, the full input list otherwise. -/
def trackSourceFor (track_list : List Track) (letter : Option Char) :
    List Track :=
  match letter with
  | some 'v' => groupedOfType track_list TrackType.video
  | some 'a' => groupedOfType track_list TrackType.audio
  | some 's' => groupedOfType track_list TrackType.subtitle
  | _ => track_list

/-- Parse one endpoint of a slice fragment: empty means absent, otherwise
`int(...)` which may raise `ValueError`. -/
def parseSliceEndpoint (cs : List Char) : Except SelectError (Option Int) :=
  if cs = [] then Except.ok none
  else
    match pyParseInt cs with
    | some i => Except.ok (some i)
    | none => Except.error SelectError.valueError

/-- Resolve one comma-separated fragment of the index/slice form against the
track list: a slice appends the sliced tracks, a bare index appends the single
indexed track or raises `IndexError`; a fragment that does not split on `:`
into exactly two parts raises the unpacking `ValueError`. -/
def resolveIndexFragment (track_list : List Track) (frag : List Char) :
    Except SelectError (List Track) :=
  if (splitTypeLetter frag).2.contains ':' then
    match pySplitChar ':' (splitTypeLetter frag).2 with
    | [sc, ec] =>
      match parseSliceEndpoint sc, parseSliceEndpoint ec with
      | Except.ok s, Except.ok e =>
        Except.ok (pySlice (trackSourceFor track_list (splitTypeLetter frag).1) s e)
      | Except.error err, _ => Except.error err
      | Except.ok _, Except.error err => Except.error err
    | _ => Except.error SelectError.valueError
  else
    match pyParseInt (splitTypeLetter frag).2 with
    | none => Except.error SelectError.valueError
    | some i =>
      match pyIndex (trackSourceFor track_list (splitTypeLetter frag).1) i with
      | none => Except.error SelectError.indexError
      | some t => Except.ok [t]

/-- One step of the index/slice-list accumulation: resolve a fragment and
append its tracks. -/
def indexFragmentStep (track_list acc : List Track) (frag : List Char) :
    Except SelectError (List Track) :=
  match resolveIndexFragment track_list frag with
  | Except.error e => Except.error e
  | Except.ok ts => Except.ok (acc ++ ts)

/-- The index/slice-list branch of `select_tracks_from_list`: resolve every
fragment, accumulate the indexed tracks, and re-emit them in the original
full-list order. -/
def selectByIndexList (track_list : List Track) (selector : String) :
    Except SelectError (List Track) :=
  match (pySplitChar ',' selector.toList).foldlM
      (indexFragmentStep track_list) ([] : List Track) with
  | Except.error e => Except.error e
  | Except.ok indexed =>
    Except.ok (track_list.filter (fun t => indexed.contains t))

/-!
## The expression-chain selection path
-/

/-- `_selector_fragment_pattern`: strip an optional leading `+`/`-` polarity
off a fragment. -/
def parsePolarity (frag : List Char) : Option Char × List Char :=
  match frag with
  | c :: rest => if c = '+' ∨ c = '-' then (some c, rest) else (none, frag)
  | [] => (none, [])

/-- Evaluate an expression against one track and accumulate it when true:
an evaluation exception or a non-boolean result raises a `RuntimeError`
naming the expression. -/
def evalTrackStep (E : ExprEval) (e : String) (acc : List Track) (t : Track) :
    Except SelectError (List Track) :=
  match E e t with
  | ExprResult.raised =>
    Except.error (SelectError.runtimeError (evalExceptionMessage e))
  | ExprResult.nonBool =>
    Except.error (SelectError.runtimeError (evalNonBooleanMessage e))
  | ExprResult.boolean b => Except.ok (if b then acc ++ [t] else acc)

/-- Evaluate one fragment's expression over every track: the literal `all`
filters nothing, otherwise the expression is evaluated per track in list
order, aborting at the first track whose evaluation fails. -/
def evalFilter (E : ExprEval) (track_list : List Track) (e : String) :
    Except SelectError (List Track) :=
  if e = "all" then Except.ok track_list
  else track_list.foldlM (evalTrackStep E e) ([] : List Track)

/-- Fold one fragment's filter result into the running selection: positive
polarity re-walks the full list keeping tracks filtered or already selected,
negative polarity drops the filtered tracks from the selection. -/
def applyPolarity (track_list selected filtered : List Track)
    (pol : Option Char) : List Track :=
  if pol = none ∨ pol = some '+' then
    track_list.filter (fun t => filtered.contains t || selected.contains t)
  else
    selected.filter (fun t => !filtered.contains t)

/-- One step of the expression chain: parse the fragment's polarity, evaluate
its expression over every track, and fold the result into the selection. -/
def expressionStep (E : ExprEval) (track_list selected : List Track)
    (frag : List Char) : Except SelectError (List Track) :=
  match evalFilter E track_list (String.mk (parsePolarity frag).2) with
  | Except.error e => Except.error e
  | Except.ok filtered =>
    Except.ok (applyPolarity track_list selected filtered (parsePolarity frag).1)

/-- The expression-chain branch of `select_tracks_from_list`: split on `:`
and apply the fragments left to right starting from the empty selection. -/
def selectByExpressions (E : ExprEval) (track_list : List Track)
    (selector : String) : Except SelectError (List Track) :=
  (pySplitChar ':' selector.toList).foldlM
    (expressionStep E track_list) ([] : List Track)

/-- `Container.select_tracks_from_list`: constant forms first, then the
index/slice-list form when the comma-pattern matches, else the
expression-chain form. -/
def select_tracks_from_list (E : ExprEval) (track_list : List Track) :
    Option String → Except SelectError (List Track)
  | none => Except.ok []
  | some sel =>
    if sel = "none" ∨ sel = "" then Except.ok []
    else if sel = "all" then Except.ok track_list
    else if commaPatternMatches sel then selectByIndexList track_list sel
    else selectByExpressions E track_list sel

instance {ε α : Type} [DecidableEq ε] [DecidableEq α] :
    DecidableEq (Except ε α) := fun a b =>
  match a, b with
  | Except.ok x, Except.ok y => decidable_of_iff (x = y) (by simp)
  | Except.error x, Except.error y => decidable_of_iff (x = y) (by simp)
  | Except.ok _, Except.error _ => isFalse (by simp)
  | Except.error _, Except.ok _ => isFalse (by simp)

/-! ## Concrete fixtures for the selector claims -/

/-- A track with every disposition flag cleared. -/
def clearFlags : TrackFlags :=
  ⟨false, false, false, false, false, false, false⟩

/-- The commentary disposition flag alone. -/
def commentaryFlags : TrackFlags :=
  ⟨false, false, false, false, false, false, true⟩

/-- End-to-end scenario track `v(idx0, video, eng)`. -/
def cV0 : Track :=
  ⟨0, TrackType.video, some "hevc", none, some "eng", none, clearFlags, none⟩

/-- End-to-end scenario track `a(idx1, audio, eng, "Commentary" in name)`. -/
def cA1 : Track :=
  ⟨1, TrackType.audio, some "dts", none, some "eng", some "Commentary",
    clearFlags, none⟩

/-- End-to-end scenario track `a(idx2, audio, jpn)`. -/
def cA2 : Track :=
  ⟨2, TrackType.audio, some "aac", none, some "jpn", none, clearFlags, none⟩

/-- Type-prefixed-slice scenario track `v0` (full-list index 0). -/
def w0 : Track :=
  ⟨0, TrackType.video, none, none, none, none, clearFlags, none⟩

/-- Type-prefixed-slice scenario track `a0` (full-list index 1). -/
def w1 : Track :=
  ⟨1, TrackType.audio, none, none, none, none, clearFlags, none⟩

/-- Type-prefixed-slice scenario track `v1` (full-list index 2). -/
def w2 : Track :=
  ⟨2, TrackType.video, none, none, none, none, clearFlags, none⟩

/-- Type-prefixed-slice scenario track `s0` (full-list index 3). -/
def w3 : Track :=
  ⟨3, TrackType.subtitle, none, none, none, none, clearFlags, none⟩

/-- The expression text of an expression-chain fragment (the fragment with
its optional polarity sign stripped). -/
def exprOfFragment (frag : List Char) : String :=
  String.mk (parsePolarity frag).2

/-- A fragment offends when its expression is not the literal `all` and its
evaluation on some track of the list raises or returns a non-boolean. -/
def fragmentOffends (E : ExprEval) (track_list : List Track)
    (frag : List Char) : Prop :=
  exprOfFragment frag ≠ "all" ∧
    ∃ t ∈ track_list, E (exprOfFragment frag) t = ExprResult.raised ∨
      E (exprOfFragment frag) t = ExprResult.nonBool

/-- A fragment of the index-list form in its simple shape: an optional type
letter followed by either a parseable bare signed integer, or a single-colon
slice whose two endpoints are each empty or a parseable signed integer.
(The index-list pattern also admits fragments that are concatenations of
several such items, e.g. `1:2:3`; those are not simple.) -/
def isSimpleIndexFragment (frag : List Char) : Bool :=
  if (splitTypeLetter frag).2.contains ':' then
    match pySplitChar ':' (splitTypeLetter frag).2 with
    | [sc, ec] =>
      (decide (sc = []) || (pyParseInt sc).isSome) &&
        (decide (ec = []) || (pyParseInt ec).isSome)
    | _ => false
  else (pyParseInt (splitTypeLetter frag).2).isSome

/-- Whether a fragment is a bare index whose (possibly negative) index is out
of range for its (possibly type-filtered) source sub-list. -/
def bareIndexOutOfRange (track_list : List Track) (frag : List Char) : Bool :=
  if (splitTypeLetter frag).2.contains ':' then false
  else
    match pyParseInt (splitTypeLetter frag).2 with
    | some i => (pyIndex (trackSourceFor track_list (splitTypeLetter frag).1) i).isNone
    | none => false

/-!
## Mux job model (`mux.py`)

Python dicts preserve insertion order, which the option maps and the container
grouping rely on, so they are embedded as association lists: lookup finds the
first (unique) matching key, insertion replaces in place or appends at the
end, and `update` folds the supplied entries into the stored map.
-/

/-- `mux.OutputOption`. -/
inductive OutputOption
  | Title
deriving DecidableEq, Repr

/-- `mux.ContainerOption`. -/
inductive ContainerOption
  | NoChapters
  | NoAttachments
  | NoGlobalTags
  | NoTrackTags
deriving DecidableEq, Repr

/-- `mux.TrackOption`. -/
inductive TrackOption
  | Name
  | Language
  | Tags
  | Charset
  | Default
  | Enabled
  | Forced
  | HearingImpaired
  | VisualImpaired
  | TextDescriptions
  | OriginalLanguage
  | Commentary
  | ReduceToCore
deriving DecidableEq, Repr

/-- `mux.OptionValue`: `str | bool | pathlib.Path` (paths are strings here). -/
inductive OptionValue
  | str (s : String)
  | bool (b : Bool)
deriving DecidableEq, Repr

/-- Python `d.get(k)` on an insertion-ordered dict. -/
def dictFind {κ ν : Type} [DecidableEq κ] : List (κ × ν) → κ → Option ν
  | [], _ => none
  | (k2, v) :: rest, k => if k2 = k then some v else dictFind rest k

/-- Python `d[k] = v`: replace in place when the key exists, else append. -/
def dictInsert {κ ν : Type} [DecidableEq κ] : List (κ × ν) → κ → ν → List (κ × ν)
  | [], k, v => [(k, v)]
  | (k2, v2) :: rest, k, v =>
    if k2 = k then (k2, v) :: rest else (k2, v2) :: dictInsert rest k v

/-- Python `d.update(upd)`: fold the update's entries in its order. -/
def dictUpdate {κ ν : Type} [DecidableEq κ] (d upd : List (κ × ν)) :
    List (κ × ν) :=
  upd.foldl (fun acc kv => dictInsert acc kv.1 kv.2) d

/-- Python `del d[k]` (for the unique matching entry; no-op when absent,
matching the guarded deletes in the source). -/
def dictErase {κ ν : Type} [DecidableEq κ] : List (κ × ν) → κ → List (κ × ν)
  | [], _ => []
  | (k2, v2) :: rest, k => if k2 = k then rest else (k2, v2) :: dictErase rest k

/-- Errors raised by `MuxJob` operations: the bespoke exceptions plus the
`assert` statements in the source. -/
inductive MuxError
  | duplicateTrack (t : Track)
  | trackNotFound (t : Track)
  | noParentContainer (t : Track)
  | assertionFailed
deriving DecidableEq, Repr

/-- `mux.MuxJob` state: output path, the three option scopes, and the track
order. -/
structure MuxJob where
  output : String
  output_options : List (OutputOption × OptionValue)
  container_options : List (ContainerRef × List (ContainerOption × OptionValue))
  track_options : List (Track × List (TrackOption × OptionValue))
  track_order : List Track
deriving DecidableEq, Repr

/-- `MuxJob.get_track_options`. -/
def get_track_options (job : MuxJob) (t : Track) :
    List (TrackOption × OptionValue) :=
  (dictFind job.track_options t).getD []

/-- `MuxJob.set_track_options`. -/
def set_track_options (job : MuxJob) (t : Track)
    (opts : List (TrackOption × OptionValue)) : MuxJob :=
  { job with track_options := dictInsert job.track_options t opts }

/-- `MuxJob.update_track_options`. -/
def update_track_options (job : MuxJob) (t : Track)
    (opts : List (TrackOption × OptionValue)) : MuxJob :=
  match dictFind job.track_options t with
  | some current =>
    { job with track_options :=
        dictInsert job.track_options t (dictUpdate current opts) }
  | none => set_track_options job t opts

/-- `MuxJob.delete_track_options`. -/
def delete_track_options (job : MuxJob) (t : Track) : MuxJob :=
  { job with track_options := dictErase job.track_options t }

/-- `MuxJob.get_container_options`. -/
def get_container_options (job : MuxJob) (c : ContainerRef) :
    List (ContainerOption × OptionValue) :=
  (dictFind job.container_options c).getD []

/-- `MuxJob.delete_container_options`. -/
def delete_container_options (job : MuxJob) (c : ContainerRef) : MuxJob :=
  { job with container_options := dictErase job.container_options c }

/-- `MuxJob._is_track_referenced`. -/
def is_track_referenced (job : MuxJob) (t : Track) : Bool :=
  job.track_order.contains t

/-- `MuxJob._is_container_referenced`. -/
def is_container_referenced (job : MuxJob) (c : ContainerRef) : Bool :=
  job.track_order.any (fun t => t.container == some c)

/-- `MuxJob.append_track`: duplicate tracks are a hard error; options are
stored only when supplied and non-empty (Python dict truthiness). -/
def append_track (job : MuxJob) (t : Track)
    (options : Option (List (TrackOption × OptionValue))) :
    Except MuxError MuxJob :=
  if is_track_referenced job t then Except.error (MuxError.duplicateTrack t)
  else
    match options with
    | some opts =>
      if opts.isEmpty then
        Except.ok { job with track_order := job.track_order ++ [t] }
      else
        Except.ok (set_track_options
          { job with track_order := job.track_order ++ [t] } t opts)
    | none => Except.ok { job with track_order := job.track_order ++ [t] }

/-- `MuxJob.remove_track`: removing a track that was never added is a hard
error; otherwise the track is removed and options are cleaned up per the two
flags (container options only when no other track references the container). -/
def remove_track (job : MuxJob) (t : Track)
    (cleanup_track_options cleanup_container_options : Bool) :
    Except MuxError MuxJob :=
  if !is_track_referenced job t then Except.error (MuxError.trackNotFound t)
  else
    let job2 := { job with track_order := job.track_order.erase t }
    let job3 := if cleanup_track_options then delete_track_options job2 t else job2
    match t.container with
    | some c =>
      if cleanup_container_options && !is_container_referenced job3 c then
        Except.ok (delete_container_options job3 c)
      else Except.ok job3
    | none => Except.ok job3

/-- Python truthiness of an option value (`bool(x)`). -/
def pyTruthy : OptionValue → Bool
  | OptionValue.str s => decide (s ≠ "")
  | OptionValue.bool b => b

/-- `str(current_options.get(TrackOption.Name, track.name) or "")` — the
effective name string used by the auto-assignment passes. -/
def effectiveNameValue (current : List (TrackOption × OptionValue))
    (t : Track) : String :=
  match dictFind current TrackOption.Name with
  | some (OptionValue.str s) => s
  | some (OptionValue.bool b) => if b then "True" else ""
  | none => t.name.getD ""

/-- `bool(current_options.get(option, fallback))` — a disposition flag
overridden by a pending option when present. -/
def effectiveFlag (current : List (TrackOption × OptionValue))
    (o : TrackOption) (fallback : Bool) : Bool :=
  match dictFind current o with
  | some v => pyTruthy v
  | none => fallback

/-- One step of grouping `_assign_default_flags` tracks by language then by
type (both dicts in insertion order; absent language defaults to `und`). -/
def addToLangGroups
    (groups : List (String × List (TrackType × List Track))) (t : Track) :
    List (String × List (TrackType × List Track)) :=
  let lang := t.language.getD "und"
  match dictFind groups lang with
  | none => groups ++ [(lang, [(t.type, [t])])]
  | some inner =>
    match dictFind inner t.type with
    | none => dictInsert groups lang (inner ++ [(t.type, [t])])
    | some l => dictInsert groups lang (dictInsert inner t.type (l ++ [t]))

/-- `tracks_by_language_by_type` of `_assign_default_flags`. -/
def languageTypeGroups (order : List Track) :
    List (String × List (TrackType × List Track)) :=
  order.foldl addToLangGroups []

/-- One track of a `_assign_default_flags` partition: state is
`(default_found, alternate, job)`.  A disqualified track first gets
`Default := False`; then, unless the track is HI-or-compatibility with no
alternate yet, the `else` arm overwrites `Default := not default_found` and
marks a default as found (this mirrors the source's `if/else` exactly). -/
def defaultFlagTrackStep (st : Bool × Option Track × MuxJob) (t : Track) :
    Bool × Option Track × MuxJob :=
  let current := get_track_options st.2.2 t
  let name := pyLower (effectiveNameValue current t)
  let is_forced := effectiveFlag current TrackOption.Forced t.flags.forced
  let is_hi := effectiveFlag current TrackOption.HearingImpaired
    t.flags.hearing_impaired
  let is_commentary := effectiveFlag current TrackOption.Commentary
    t.flags.commentary
  let is_compatibility := pyContains name "compatibility"
  let base : List (TrackOption × OptionValue) :=
    if is_forced || is_hi || is_commentary || is_compatibility then
      [(TrackOption.Default, OptionValue.bool false)]
    else []
  if (is_hi || is_compatibility) && st.2.1.isNone then
    (st.1, some t, update_track_options st.2.2 t base)
  else
    (true, st.2.1,
      update_track_options st.2.2 t
        (dictInsert base TrackOption.Default (OptionValue.bool (!st.1))))

/-- One `(language, type)` partition of `_assign_default_flags`: scan the
tracks, then promote the alternate when no default was found, and fail the
final `assert` when there is neither. -/
def processPartition (job : MuxJob) (tracks : List Track) :
    Except MuxError MuxJob :=
  match tracks.foldl defaultFlagTrackStep (false, none, job) with
  | (true, _, job2) => Except.ok job2
  | (false, some alt, job2) =>
    Except.ok (update_track_options job2 alt
      [(TrackOption.Default, OptionValue.bool true)])
  | (false, none, _) => Except.error MuxError.assertionFailed

/-- `MuxJob._assign_default_flags`. -/
def assign_default_flags (job : MuxJob) : Except MuxError MuxJob :=
  (languageTypeGroups job.track_order).foldlM
    (fun j lg => lg.2.foldlM (fun j2 tg => processPartition j2 tg.2) j) job

/-!
## Command-argument generation (`mux.py`)
-/

/-- The three formatter classes of the source
(`_UnaryOptionFormatter`, `_BooleanOptionFormatter`, `_StringOptionFormatter`). -/
inductive FormatterKind
  | unary
  | booleanFlag
  | stringValue
deriving DecidableEq, Repr

/-- The CLI flag of each track option (`_option_formatters`). -/
def trackOptionFlagName : TrackOption → String
  | TrackOption.Name => "--track-name"
  | TrackOption.Language => "--language"
  | TrackOption.Tags => "--tags"
  | TrackOption.Charset => "--sub-charset"
  | TrackOption.Default => "--default-track-flag"
  | TrackOption.Enabled => "--track-enabled-flag"
  | TrackOption.Forced => "--forced-display-flag"
  | TrackOption.HearingImpaired => "--hearing-impaired-flag"
  | TrackOption.VisualImpaired => "--visual-impaired-flag"
  | TrackOption.TextDescriptions => "--text-descriptions-flag"
  | TrackOption.OriginalLanguage => "--original-flag"
  | TrackOption.Commentary => "--commentary-flag"
  | TrackOption.ReduceToCore => "--reduce-to-core"

/-- The formatter class of each track option (`_option_formatters`). -/
def trackOptionKind : TrackOption → FormatterKind
  | TrackOption.Name => FormatterKind.stringValue
  | TrackOption.Language => FormatterKind.stringValue
  | TrackOption.Tags => FormatterKind.stringValue
  | TrackOption.Charset => FormatterKind.stringValue
  | TrackOption.ReduceToCore => FormatterKind.unary
  | _ => FormatterKind.booleanFlag

/-- Format one track option: unary yields the flag alone, boolean yields the
flag plus `index:0|1`, string yields the flag plus `index:value`; a value of
the wrong type fails the formatter's `isinstance` assertion. -/
def formatTrackOption (o : TrackOption) (v : OptionValue) (t : Track) :
    Except MuxError (List String) :=
  match trackOptionKind o, v with
  | FormatterKind.unary, _ => Except.ok [trackOptionFlagName o]
  | FormatterKind.booleanFlag, OptionValue.bool b =>
    Except.ok [trackOptionFlagName o,
      toString t.index ++ ":" ++ (if b then "1" else "0")]
  | FormatterKind.booleanFlag, OptionValue.str _ =>
    Except.error MuxError.assertionFailed
  | FormatterKind.stringValue, OptionValue.str s =>
    Except.ok [trackOptionFlagName o, toString t.index ++ ":" ++ s]
  | FormatterKind.stringValue, OptionValue.bool _ =>
    Except.error MuxError.assertionFailed

/-- The CLI flag of each container option (all unary in `_option_formatters`). -/
def containerOptionFlagName : ContainerOption → String
  | ContainerOption.NoChapters => "--no-chapters"
  | ContainerOption.NoAttachments => "--no-attachments"
  | ContainerOption.NoGlobalTags => "--no-global-tags"
  | ContainerOption.NoTrackTags => "--no-track-tags"

/-- Format one output option.  The only output option, `Title`, is bound to
the string formatter, whose `assert track is not None` fails because
`_generate_output_arguments` passes no track. -/
def formatOutputOption (o : OutputOption) (v : OptionValue) :
    Except MuxError (List String) :=
  match o, v with
  | OutputOption.Title, _ => Except.error MuxError.assertionFailed

/-- `MuxJob._generate_output_arguments`: `--output`, the output path, then the
stored output options. -/
def generate_output_arguments (job : MuxJob) : Except MuxError (List String) :=
  job.output_options.foldlM
    (fun acc ov =>
      match formatOutputOption ov.1 ov.2 with
      | Except.error e => Except.error e
      | Except.ok args => Except.ok (acc ++ args))
    ["--output", job.output]

/-- One step of grouping the track order by container (`tracks_by_container`
in `_generate_command_arguments`): a track with no bound container is a hard
error. -/
def groupStep (groups : List (ContainerRef × List Track)) (t : Track) :
    Except MuxError (List (ContainerRef × List Track)) :=
  match t.container with
  | none => Except.error (MuxError.noParentContainer t)
  | some c =>
    match dictFind groups c with
    | none => Except.ok (groups ++ [(c, [t])])
    | some ts => Except.ok (dictInsert groups c (ts ++ [t]))

/-- The job's tracks grouped by container, in order of first appearance. -/
def tracks_by_container (order : List Track) :
    Except MuxError (List (ContainerRef × List Track)) :=
  order.foldlM groupStep []

/-- Accumulate one formatted option into a track's argument list. -/
def optionArgsStep (t : Track) (acc : List String)
    (ov : TrackOption × OptionValue) : Except MuxError (List String) :=
  match formatTrackOption ov.1 ov.2 t with
  | Except.error e => Except.error e
  | Except.ok args => Except.ok (acc ++ args)

/-- `MuxJob._generate_track_arguments`: the track's accumulated options in
stored (insertion) order, each formatted per its kind. -/
def generate_track_arguments (job : MuxJob) (t : Track) :
    Except MuxError (List String) :=
  (get_track_options job t).foldlM (optionArgsStep t) []

/-- `MuxJob._generate_container_arguments`: the container's options (all
unary) then its filename as a positional argument. -/
def generate_container_arguments (job : MuxJob) (c : ContainerRef) :
    List String :=
  (get_container_options job c).map (fun ov => containerOptionFlagName ov.1) ++
    [c.filename]

/-- The "select" flag of a type bucket (`_container_options_for_type`;
attachments have no entry and never form a bucket). -/
def selectFlagFor : TrackType → String
  | TrackType.video => "--video-tracks"
  | TrackType.audio => "--audio-tracks"
  | TrackType.subtitle => "--subtitle-tracks"
  | TrackType.attachment => ""

/-- The "exclude" flag of a type bucket (`_container_options_for_type`). -/
def excludeFlagFor : TrackType → String
  | TrackType.video => "--no-video"
  | TrackType.audio => "--no-audio"
  | TrackType.subtitle => "--no-subtitles"
  | TrackType.attachment => ""

/-- The keys of `_container_options_for_type`, in declaration order. -/
def bucketTypes : List TrackType :=
  [TrackType.video, TrackType.audio, TrackType.subtitle]

/-- The sub-list of a container group's tracks of one type. -/
def bucketOf (ts : List Track) (tt : TrackType) : List Track :=
  ts.filter (fun t => t.type == tt)

/-- Python `",".join(parts)`. -/
def commaJoin : List String → String
  | [] => ""
  | p :: rest => rest.foldl (fun acc q => acc ++ "," ++ q) p

/-- Accumulate one track's option arguments into a bucket's argument list. -/
def trackArgsStep (job : MuxJob) (acc : List String) (t : Track) :
    Except MuxError (List String) :=
  match generate_track_arguments job t with
  | Except.error e => Except.error e
  | Except.ok args => Except.ok (acc ++ args)

/-- One type bucket of one container group: the exclude flag when the bucket
is empty, else the select flag, the comma-joined original track indices, and
each bucketed track's option arguments. -/
def generate_bucket_arguments (job : MuxJob) (ts : List Track)
    (tt : TrackType) : Except MuxError (List String) :=
  if (bucketOf ts tt).isEmpty then Except.ok [excludeFlagFor tt]
  else
    match (bucketOf ts tt).foldlM (trackArgsStep job) [] with
    | Except.error e => Except.error e
    | Except.ok optArgs =>
      Except.ok (selectFlagFor tt ::
        commaJoin ((bucketOf ts tt).map (fun t => toString t.index)) :: optArgs)

/-- Accumulate one type bucket's arguments into a container group's list. -/
def groupBucketStep (job : MuxJob) (ts : List Track) (acc : List String)
    (tt : TrackType) : Except MuxError (List String) :=
  match generate_bucket_arguments job ts tt with
  | Except.error e => Except.error e
  | Except.ok b => Except.ok (acc ++ b)

/-- All arguments of one container group: the three type buckets in canonical
order, then the container's own arguments. -/
def generate_group_arguments (job : MuxJob) (g : ContainerRef × List Track) :
    Except MuxError (List String) :=
  match bucketTypes.foldlM (groupBucketStep job g.2) [] with
  | Except.error e => Except.error e
  | Except.ok bargs => Except.ok (bargs ++ generate_container_arguments job g.1)

/-- One step of accumulating `container_order`: append the processed
container when not yet present. -/
def containerOrderStep (acc : List ContainerRef) (g : ContainerRef × List Track) :
    List ContainerRef :=
  if acc.contains g.1 then acc else acc ++ [g.1]

/-- `container_order` as accumulated by the source: each processed container
appended when not yet present. -/
def containerOrderOf (groups : List (ContainerRef × List Track)) :
    List ContainerRef :=
  groups.foldl containerOrderStep []

/-- Python `list.index` for the container-order lookup. -/
def listIndexOf {α : Type} [DecidableEq α] : List α → α → Nat
  | [], _ => 0
  | y :: ys, x => if y = x then 0 else listIndexOf ys x + 1

/-- One `"containerIndex:trackIndex"` pair of the final track order; the
source asserts the track has a container. -/
def trackOrderPairStep (corder : List ContainerRef) (acc : List String)
    (t : Track) : Except MuxError (List String) :=
  match t.container with
  | none => Except.error (MuxError.noParentContainer t)
  | some c =>
    Except.ok (acc ++ [toString (listIndexOf corder c) ++ ":" ++
      toString t.index])

/-- The `"cIdx:tIdx"` pairs for the whole track order. -/
def trackOrderPairs (order : List Track) (corder : List ContainerRef) :
    Except MuxError (List String) :=
  order.foldlM (trackOrderPairStep corder) []

/-- Accumulate one container group's arguments into the command. -/
def commandGroupStep (job : MuxJob) (acc : List String)
    (g : ContainerRef × List Track) : Except MuxError (List String) :=
  match generate_group_arguments job g with
  | Except.error e => Except.error e
  | Except.ok gargs => Except.ok (acc ++ gargs)

/-- `MuxJob._generate_command_arguments`: output arguments, then every
container group's arguments, then `--track-order` with the comma-joined
pairs. -/
def generate_command_arguments (job : MuxJob) : Except MuxError (List String) :=
  match generate_output_arguments job with
  | Except.error e => Except.error e
  | Except.ok outArgs =>
    match tracks_by_container job.track_order with
    | Except.error e => Except.error e
    | Except.ok groups =>
      match groups.foldlM (commandGroupStep job) [] with
      | Except.error e => Except.error e
      | Except.ok midArgs =>
        match trackOrderPairs job.track_order (containerOrderOf groups) with
        | Except.error e => Except.error e
        | Except.ok pairs =>
          Except.ok (outArgs ++ midArgs ++ ["--track-order", commaJoin pairs])

/-!
## Specification-side restatements used to check the generator claims
-/

/-- One step of collecting containers in order of first appearance. -/
def firstAppearanceFold (acc : List ContainerRef) (t : Track) :
    List ContainerRef :=
  match t.container with
  | some c => if acc.contains c then acc else acc ++ [c]
  | none => acc

/-- Containers of the track order in order of first appearance (the claim's
"0-based rank of the first appearance of that track's container"). -/
def firstAppearanceContainers (order : List Track) : List ContainerRef :=
  order.foldl firstAppearanceFold []

/-- The claim's `"<containerPositionIndex>:<trackOriginalIndex>"` string for
one track. -/
def specTrackOrderPair (corder : List ContainerRef) (t : Track) : String :=
  match t.container with
  | some c => toString (listIndexOf corder c) ++ ":" ++ toString t.index
  | none => ""

/-- C4's claim-side formatting table, written from the spec sentence: each
string option as its flag name followed by `index:value`, each boolean option
as its flag name followed by `index:0|1`, each unary option as its flag name
alone (a value of the wrong type produces nothing — generation fails there
anyway). -/
def specFormatTrackOption (idx : Nat) (o : TrackOption) (v : OptionValue) :
    List String :=
  match o, v with
  | TrackOption.Name, OptionValue.str s => ["--track-name", toString idx ++ ":" ++ s]
  | TrackOption.Language, OptionValue.str s => ["--language", toString idx ++ ":" ++ s]
  | TrackOption.Tags, OptionValue.str s => ["--tags", toString idx ++ ":" ++ s]
  | TrackOption.Charset, OptionValue.str s => ["--sub-charset", toString idx ++ ":" ++ s]
  | TrackOption.Default, OptionValue.bool b =>
    ["--default-track-flag", toString idx ++ ":" ++ (if b then "1" else "0")]
  | TrackOption.Enabled, OptionValue.bool b =>
    ["--track-enabled-flag", toString idx ++ ":" ++ (if b then "1" else "0")]
  | TrackOption.Forced, OptionValue.bool b =>
    ["--forced-display-flag", toString idx ++ ":" ++ (if b then "1" else "0")]
  | TrackOption.HearingImpaired, OptionValue.bool b =>
    ["--hearing-impaired-flag", toString idx ++ ":" ++ (if b then "1" else "0")]
  | TrackOption.VisualImpaired, OptionValue.bool b =>
    ["--visual-impaired-flag", toString idx ++ ":" ++ (if b then "1" else "0")]
  | TrackOption.TextDescriptions, OptionValue.bool b =>
    ["--text-descriptions-flag", toString idx ++ ":" ++ (if b then "1" else "0")]
  | TrackOption.OriginalLanguage, OptionValue.bool b =>
    ["--original-flag", toString idx ++ ":" ++ (if b then "1" else "0")]
  | TrackOption.Commentary, OptionValue.bool b =>
    ["--commentary-flag", toString idx ++ ":" ++ (if b then "1" else "0")]
  | TrackOption.ReduceToCore, _ => ["--reduce-to-core"]
  | _, _ => []

/-- C4's claim-side option arguments of one track: its stored options, in
stored (insertion) order, each formatted by the claim-side table. -/
def specTrackOptionArgs (job : MuxJob) (t : Track) : List String :=
  (get_track_options job t).foldr
    (fun ov acc => specFormatTrackOption t.index ov.1 ov.2 ++ acc) []

/-- C4's amended claim for one non-empty bucket: select flag, comma-joined
original indices, then each bucketed track's stored options in stored
(insertion) order with kind-appropriate formatting. -/
def specBucketArguments (job : MuxJob) (ts : List Track) (tt : TrackType) :
    List String :=
  selectFlagFor tt ::
    commaJoin ((bucketOf ts tt).map (fun t => toString t.index)) ::
    (bucketOf ts tt).foldr (fun t acc => specTrackOptionArgs job t ++ acc) []

/-- A mux job with the attachment tracks never added (C5's comparison job). -/
def without_attachment_tracks (job : MuxJob) : MuxJob :=
  { job with track_order :=
      job.track_order.filter (fun t => !(t.type == TrackType.attachment)) }

/-- Source container of the generator fixtures. -/
def mc : ContainerRef := ⟨0, "in.mkv"⟩

/-- C4 fixture: an audio track whose option map stores the boolean `Default`
option before the string `Name` option. -/
def c4Track : Track :=
  ⟨0, TrackType.audio, some "aac", none, some "eng", none, clearFlags, some mc⟩

/-- C4 fixture: a one-track job with options stored in the order
`[Default ↦ true, Name ↦ "Stereo"]`. -/
def c4Job : MuxJob :=
  ⟨"out.mkv", [], [],
    [(c4Track,
      [(TrackOption.Default, OptionValue.bool true),
        (TrackOption.Name, OptionValue.str "Stereo")])],
    [c4Track]⟩

/-- C5 fixture: a video track bound to the container. -/
def c5Video : Track :=
  ⟨0, TrackType.video, some "hevc", none, some "eng", none, clearFlags, some mc⟩

/-- C5 fixture: an attachment track bound to the same container. -/
def c5Att : Track :=
  ⟨1, TrackType.attachment, none, none, none, none, clearFlags, some mc⟩

/-- C5 fixture: a job holding the video track and the attachment track. -/
def c5JobA : MuxJob := ⟨"out.mkv", [], [], [], [c5Video, c5Att]⟩

/-- C1 scenario: first English audio track, marked commentary by its
disposition flag. -/
def mt1 : Track :=
  ⟨0, TrackType.audio, some "dts", none, some "eng",
    some "Director Commentary", commentaryFlags, none⟩

/-- C1 scenario: second English audio track, no disqualifying flag or name. -/
def mt2 : Track :=
  ⟨1, TrackType.audio, some "aac", none, some "eng", none, clearFlags, none⟩

/-- C1 scenario: a fresh mux job holding the two English audio tracks. -/
def c1Job : MuxJob := ⟨"out.mkv", [], [], [], [mt1, mt2]⟩

/-!
## Theorems
-/

/-- C2: for tracks `[v0 (video, eng), a1 (audio, eng, name "Commentary"),
a2 (audio, jpn)]`, the expression-chain selector `+isAudio:-isEnglish`
selects exactly `[a2]`: the positive fragment selects both audio tracks and
the negative fragment removes the English ones from the selection. -/
theorem c2_expression_chain_end_to_end :
    select_tracks_from_list pythonEval [cV0, cA1, cA2]
      (some "+isAudio:-isEnglish") = Except.ok [cA2] := by
  decide

/-- C6 counterexample: for `T = [v0, a0, v1, s0]`, the selector `v:0` does
not return `[v0]` — the fragment is the slice `[:0]` over the video sub-list,
which is empty. -/
theorem c6_counterexample :
    select_tracks_from_list pythonEval [w0, w1, w2, w3] (some "v:0") ≠
      Except.ok [w0] := by
  decide

/-- C6 amended: for `T = [v0, a0, v1, s0]`, the selector `v:0` denotes the
slice `[:0]` of the video-only sub-list and returns `[]`; the selector `v1`
is the literal index 1 within the video-only sub-list and returns `[v1]`
(and `v0` returns `[v0]`). -/
theorem c6_amended_type_sliced_selection :
    select_tracks_from_list pythonEval [w0, w1, w2, w3] (some "v:0") =
        Except.ok [] ∧
      select_tracks_from_list pythonEval [w0, w1, w2, w3] (some "v1") =
        Except.ok [w2] ∧
      select_tracks_from_list pythonEval [w0, w1, w2, w3] (some "v0") =
        Except.ok [w0] := by
  decide

/-- C10 counterexample: `1:2:3` is accepted by the index-list pattern, every
integer in it is in range for the four-track list, and it contains no bare
index fragment — yet selection hard-fails (the fragment splits on `:` into
three pieces and unpacking raises `ValueError`).  So out-of-range bare
indices are not the only hard failures of the index-list form. -/
theorem c10_counterexample :
    commaPatternMatches "1:2:3" = true ∧
      select_tracks_from_list pythonEval [w0, w1, w2, w3] (some "1:2:3") =
        Except.error SelectError.valueError := by
  decide

theorem applyPolarity_sublist {track_list selected filtered : List Track}
    {pol : Option Char} (hs : selected.Sublist track_list) :
    (applyPolarity track_list selected filtered pol).Sublist track_list := by
  unfold applyPolarity
  split
  · exact List.filter_sublist track_list
  · exact (List.filter_sublist selected).trans hs

theorem expressionFold_sublist (E : ExprEval) (track_list : List Track) :
    ∀ (frags : List (List Char)) (acc out : List Track),
      acc.Sublist track_list →
      frags.foldlM (expressionStep E track_list) acc = Except.ok out →
      out.Sublist track_list := by
  intro frags
  induction frags with
  | nil =>
    intro acc out hacc h
    simp only [List.foldlM_nil, pure, Except.pure] at h
    cases h
    exact hacc
  | cons f fs ih =>
    intro acc out hacc h
    rw [List.foldlM_cons] at h
    cases he : expressionStep E track_list acc f with
    | error e => rw [he] at h; simp [Bind.bind, Except.bind] at h
    | ok next =>
      rw [he] at h
      simp only [Bind.bind, Except.bind] at h
      refine ih next out ?_ h
      unfold expressionStep at he
      cases hf : evalFilter E track_list (String.mk (parsePolarity f).2) with
      | error e => rw [hf] at he; simp at he
      | ok filtered =>
        rw [hf] at he
        simp only [Except.ok.injEq] at he
        cases he
        exact applyPolarity_sublist hacc

theorem selectByIndexList_sublist {track_list : List Track} {sel : String}
    {out : List Track} (h : selectByIndexList track_list sel = Except.ok out) :
    out.Sublist track_list := by
  unfold selectByIndexList at h
  cases hf : (pySplitChar ',' sel.toList).foldlM
      (indexFragmentStep track_list) ([] : List Track) with
  | error e => rw [hf] at h; simp at h
  | ok indexed =>
    rw [hf] at h
    simp only [Except.ok.injEq] at h
    cases h
    exact List.filter_sublist track_list

/-- C7: on any successful run, the returned selection is a subsequence of the
input list — every returned track occurs in the input, in the input's relative
order — and when the input has no duplicate tracks neither does the result.
This covers all three selector forms (constant, index/slice list, and
expression chain) and holds for every evaluation environment. -/
theorem c7_selection_is_subsequence (E : ExprEval) (track_list : List Track)
    (selector : Option String) (out : List Track)
    (h : select_tracks_from_list E track_list selector = Except.ok out) :
    out.Sublist track_list ∧ (track_list.Nodup → out.Nodup) := by
  have hs : out.Sublist track_list := by
    cases selector with
    | none =>
      unfold select_tracks_from_list at h
      cases h; exact List.nil_sublist track_list
    | some sel =>
      simp only [select_tracks_from_list] at h
      by_cases h1 : sel = "none" ∨ sel = ""
      · rw [if_pos h1] at h; cases h; exact List.nil_sublist track_list
      · rw [if_neg h1] at h
        by_cases h2 : sel = "all"
        · rw [if_pos h2] at h; cases h; exact List.Sublist.refl track_list
        · rw [if_neg h2] at h
          by_cases h3 : commaPatternMatches sel = true
          · rw [if_pos h3] at h
            exact selectByIndexList_sublist h
          · rw [if_neg h3] at h
            exact expressionFold_sublist E track_list _ [] out
              (List.nil_sublist track_list) h
  exact ⟨hs, fun hn => hn.sublist hs⟩

/-- Witness for C7 at a concrete input: selecting `v1` from the four-track
list succeeds with `[v1]`, which the theorem certifies is a nodup
subsequence. -/
theorem c7_witness :
    List.Sublist [w2] [w0, w1, w2, w3] ∧
      ([w0, w1, w2, w3].Nodup → [w2].Nodup) :=
  c7_selection_is_subsequence pythonEval [w0, w1, w2, w3] (some "v1") [w2]
    (by decide)

theorem charsStartWith_append_self :
    ∀ (n ys : List Char), charsStartWith n (n ++ ys) = true := by
  intro n
  induction n with
  | nil => intro ys; rfl
  | cons c cs ih => intro ys; simp [charsStartWith, ih ys]

theorem charsContain_append_self :
    ∀ (n ys : List Char), charsContain n (n ++ ys) = true := by
  intro n ys
  cases n with
  | nil =>
    cases ys with
    | nil => rfl
    | cons y ys => simp [charsContain, charsStartWith]
  | cons c cs =>
    have h := charsStartWith_append_self (c :: cs) ys
    simp only [List.cons_append] at h ⊢
    simp [charsContain, h]

theorem charsContain_parts :
    ∀ (xs n ys : List Char), charsContain n (xs ++ n ++ ys) = true := by
  intro xs
  induction xs with
  | nil =>
    intro n ys
    simpa using charsContain_append_self n ys
  | cons x xs ih =>
    intro x_1 ys
    have hshape : (x :: xs) ++ x_1 ++ ys = x :: (xs ++ x_1 ++ ys) := by simp
    rw [hshape]
    simp only [charsContain, Bool.or_eq_true]
    right
    exact ih x_1 ys

theorem pyContains_evalExceptionMessage (e : String) :
    pyContains (evalExceptionMessage e) e = true := by
  unfold pyContains evalExceptionMessage
  show charsContain e.toList
    (String.toList ("Exception encountered while evaluating selector expression \x27" ++ e ++
      "\x27. Re-examine your selector syntax.")) = true
  rw [show ∀ a b : String, (a ++ b).toList = a.toList ++ b.toList from
    fun a b => String.data_append a b]
  rw [show ∀ a b : String, (a ++ b).toList = a.toList ++ b.toList from
    fun a b => String.data_append a b]
  exact charsContain_parts _ _ _

theorem pyContains_evalNonBooleanMessage (e : String) :
    pyContains (evalNonBooleanMessage e) e = true := by
  unfold pyContains evalNonBooleanMessage
  show charsContain e.toList
    (String.toList ("Return type of selector expression \x27" ++ e ++
      "\x27 was not boolean. Re-examine your selector syntax.")) = true
  rw [show ∀ a b : String, (a ++ b).toList = a.toList ++ b.toList from
    fun a b => String.data_append a b]
  rw [show ∀ a b : String, (a ++ b).toList = a.toList ++ b.toList from
    fun a b => String.data_append a b]
  exact charsContain_parts _ _ _

theorem expressionStep_eq (E : ExprEval) (track_list acc : List Track)
    (frag : List Char) :
    expressionStep E track_list acc frag =
      match evalFilter E track_list (exprOfFragment frag) with
      | Except.error e => Except.error e
      | Except.ok filtered =>
        Except.ok (applyPolarity track_list acc filtered (parsePolarity frag).1) :=
  rfl

theorem evalTracksFold_error (E : ExprEval) (e : String) :
    ∀ (l acc : List Track),
      (∃ t ∈ l, E e t = ExprResult.raised ∨ E e t = ExprResult.nonBool) →
      ∃ msg, (msg = evalExceptionMessage e ∨ msg = evalNonBooleanMessage e) ∧
        l.foldlM (evalTrackStep E e) acc =
          Except.error (SelectError.runtimeError msg) := by
  intro l
  induction l with
  | nil => intro acc h; simp at h
  | cons t ts ih =>
    intro acc h
    rw [List.foldlM_cons]
    cases hEt : E e t with
    | raised =>
      refine ⟨evalExceptionMessage e, Or.inl rfl, ?_⟩
      simp [evalTrackStep, hEt, Bind.bind, Except.bind]
    | nonBool =>
      refine ⟨evalNonBooleanMessage e, Or.inr rfl, ?_⟩
      simp [evalTrackStep, hEt, Bind.bind, Except.bind]
    | boolean b =>
      have hts : ∃ u ∈ ts, E e u = ExprResult.raised ∨ E e u = ExprResult.nonBool := by
        rcases h with ⟨u, hu, hbad⟩
        cases hu with
        | head =>
          rcases hbad with hb | hb <;> rw [hEt] at hb <;> cases hb
        | tail _ hmem => exact ⟨u, hmem, hbad⟩
      rcases ih (if b then acc ++ [t] else acc) hts with ⟨msg, hmsg, hfold⟩
      refine ⟨msg, hmsg, ?_⟩
      simp [evalTrackStep, hEt, Bind.bind, Except.bind, hfold]

theorem evalTracksFold_ok (E : ExprEval) (e : String) :
    ∀ (l acc : List Track),
      (∀ t ∈ l, ∃ b, E e t = ExprResult.boolean b) →
      ∃ res, l.foldlM (evalTrackStep E e) acc = Except.ok res := by
  intro l
  induction l with
  | nil => intro acc _; exact ⟨acc, rfl⟩
  | cons t ts ih =>
    intro acc h
    rcases h t (List.mem_cons_self t ts) with ⟨b, hb⟩
    rcases ih (if b then acc ++ [t] else acc)
      (fun u hu => h u (List.mem_cons_of_mem t hu)) with ⟨res, hres⟩
    refine ⟨res, ?_⟩
    rw [List.foldlM_cons]
    simp [evalTrackStep, hb, Bind.bind, Except.bind, hres]

theorem expressionFold_error_of_offense (E : ExprEval)
    (track_list : List Track) :
    ∀ (frags : List (List Char)) (acc : List Track),
      (∃ f ∈ frags, fragmentOffends E track_list f) →
      ∃ g msg, g ∈ frags ∧ fragmentOffends E track_list g ∧
        (msg = evalExceptionMessage (exprOfFragment g) ∨
          msg = evalNonBooleanMessage (exprOfFragment g)) ∧
        frags.foldlM (expressionStep E track_list) acc =
          Except.error (SelectError.runtimeError msg) := by
  intro frags
  induction frags with
  | nil => intro acc h; simp at h
  | cons f fs ih =>
    intro acc h
    by_cases hf : fragmentOffends E track_list f
    · rcases hf with ⟨hall, hbad⟩
      rcases evalTracksFold_error E (exprOfFragment f) track_list [] hbad with
        ⟨msg, hmsg, hfold⟩
      refine ⟨f, msg, List.mem_cons_self f fs, ⟨hall, hbad⟩, hmsg, ?_⟩
      rw [List.foldlM_cons]
      have hEF : evalFilter E track_list (exprOfFragment f) =
          Except.error (SelectError.runtimeError msg) := by
        unfold evalFilter
        rw [if_neg hall]
        exact hfold
      have hstep : expressionStep E track_list acc f =
          Except.error (SelectError.runtimeError msg) := by
        rw [expressionStep_eq, hEF]
      rw [hstep]
      simp [Bind.bind, Except.bind]
    · have hfs : ∃ g ∈ fs, fragmentOffends E track_list g := by
        rcases h with ⟨g, hg, hoff⟩
        cases hg with
        | head => exact absurd hoff hf
        | tail _ hmem => exact ⟨g, hmem, hoff⟩
      have hstep : ∃ next, expressionStep E track_list acc f = Except.ok next := by
        rw [expressionStep_eq]
        by_cases hall : exprOfFragment f = "all"
        · have hEF : evalFilter E track_list (exprOfFragment f) =
              Except.ok track_list := by
            unfold evalFilter
            rw [if_pos hall]
          rw [hEF]
          exact ⟨applyPolarity track_list acc track_list (parsePolarity f).1, rfl⟩
        · have hok : ∀ t ∈ track_list,
              ∃ b, E (exprOfFragment f) t = ExprResult.boolean b := by
            intro t ht
            cases hEt : E (exprOfFragment f) t with
            | raised => exact absurd ⟨hall, t, ht, Or.inl hEt⟩ hf
            | nonBool => exact absurd ⟨hall, t, ht, Or.inr hEt⟩ hf
            | boolean b => exact ⟨b, rfl⟩
          rcases evalTracksFold_ok E (exprOfFragment f) track_list [] hok with
            ⟨res, hres⟩
          have hEF : evalFilter E track_list (exprOfFragment f) =
              Except.ok res := by
            unfold evalFilter
            rw [if_neg hall]
            exact hres
          rw [hEF]
          exact ⟨applyPolarity track_list acc res (parsePolarity f).1, rfl⟩
      rcases hstep with ⟨next, hnext⟩
      rcases ih next hfs with ⟨g, msg, hg, hoff, hmsg, hfold⟩
      refine ⟨g, msg, List.mem_cons_of_mem f hg, hoff, hmsg, ?_⟩
      rw [List.foldlM_cons, hnext]
      simp [Bind.bind, Except.bind, hfold]

/-- C9: on the expression-chain path, an expression that raises or returns a
non-boolean on some track makes `select_tracks_from_list` fail with a
`RuntimeError` whose message names (contains) the text of an offending
expression; the failure is never swallowed or deferred. -/
theorem c9_expression_errors_are_fatal (E : ExprEval)
    (track_list : List Track) (sel : String)
    (h1 : sel ≠ "none") (h2 : sel ≠ "") (h3 : sel ≠ "all")
    (h4 : commaPatternMatches sel = false)
    (frag : List Char) (hmem : frag ∈ pySplitChar ':' sel.toList)
    (hoff : fragmentOffends E track_list frag) :
    ∃ g msg, g ∈ pySplitChar ':' sel.toList ∧
      fragmentOffends E track_list g ∧
      pyContains msg (exprOfFragment g) = true ∧
      select_tracks_from_list E track_list (some sel) =
        Except.error (SelectError.runtimeError msg) := by
  rcases expressionFold_error_of_offense E track_list
      (pySplitChar ':' sel.toList) [] ⟨frag, hmem, hoff⟩ with
    ⟨g, msg, hg, hoffg, hmsg, hfold⟩
  refine ⟨g, msg, hg, hoffg, ?_, ?_⟩
  · rcases hmsg with hm | hm
    · rw [hm]; exact pyContains_evalExceptionMessage _
    · rw [hm]; exact pyContains_evalNonBooleanMessage _
  · simp only [select_tracks_from_list]
    rw [if_neg (by simp [h1, h2]), if_neg h3, if_neg (by simp [h4])]
    exact hfold

/-- Witness for C9 at a concrete input: in `isVideo:bogus` the second
fragment's expression `bogus` raises (an undefined name), so selection fails
with a `RuntimeError` naming an offending expression. -/
theorem c9_witness :
    ∃ g msg, g ∈ pySplitChar ':' ("isVideo:bogus").toList ∧
      fragmentOffends pythonEval [w0] g ∧
      pyContains msg (exprOfFragment g) = true ∧
      select_tracks_from_list pythonEval [w0] (some "isVideo:bogus") =
        Except.error (SelectError.runtimeError msg) :=
  c9_expression_errors_are_fatal pythonEval [w0] "isVideo:bogus"
    (by decide) (by decide) (by decide) (by decide)
    ("bogus").toList (by decide)
    ⟨by decide, w0, by decide, Or.inl (by decide)⟩

theorem parseSliceEndpoint_ok {cs : List Char}
    (h : (decide (cs = []) || (pyParseInt cs).isSome) = true) :
    ∃ s, parseSliceEndpoint cs = Except.ok s := by
  unfold parseSliceEndpoint
  by_cases hn : cs = []
  · rw [if_pos hn]; exact ⟨none, rfl⟩
  · rw [if_neg hn]
    simp only [hn, decide_False, Bool.false_or, Option.isSome_iff_exists] at h
    rcases h with ⟨i, hi⟩
    rw [hi]
    exact ⟨some i, rfl⟩

theorem resolveIndexFragment_classify (track_list : List Track)
    (frag : List Char) (h : isSimpleIndexFragment frag = true) :
    (bareIndexOutOfRange track_list frag = true ∧
        resolveIndexFragment track_list frag =
          Except.error SelectError.indexError) ∨
      (bareIndexOutOfRange track_list frag = false ∧
        ∃ ts, resolveIndexFragment track_list frag = Except.ok ts) := by
  unfold isSimpleIndexFragment at h
  by_cases hc : (splitTypeLetter frag).2.contains ':'
  · right
    rw [if_pos hc] at h
    refine ⟨by unfold bareIndexOutOfRange; rw [if_pos hc], ?_⟩
    unfold resolveIndexFragment
    rw [if_pos hc]
    cases hsplit : pySplitChar ':' (splitTypeLetter frag).2 with
    | nil => rw [hsplit] at h; simp at h
    | cons sc rest =>
      cases rest with
      | nil => rw [hsplit] at h; simp at h
      | cons ec rest2 =>
        cases rest2 with
        | nil =>
          rw [hsplit] at h
          simp only [Bool.and_eq_true] at h
          rcases parseSliceEndpoint_ok h.1 with ⟨s, hs⟩
          rcases parseSliceEndpoint_ok h.2 with ⟨e, he⟩
          simp only [hs, he]
          exact ⟨_, rfl⟩
        | cons c3 rest3 => rw [hsplit] at h; simp at h
  · rw [if_neg hc] at h
    rw [Option.isSome_iff_exists] at h
    rcases h with ⟨i, hi⟩
    unfold bareIndexOutOfRange resolveIndexFragment
    rw [if_neg hc, if_neg hc, hi]
    cases hidx : pyIndex (trackSourceFor track_list (splitTypeLetter frag).1) i with
    | none =>
      left
      exact ⟨by simp [hidx], by simp [hidx]⟩
    | some t =>
      right
      exact ⟨by simp [hidx], ⟨[t], by simp [hidx]⟩⟩

theorem indexFold_error_iff (track_list : List Track) :
    ∀ (frags : List (List Char)) (acc : List Track),
      (∀ f ∈ frags, isSimpleIndexFragment f = true) →
      ((∃ e, frags.foldlM (indexFragmentStep track_list) acc =
          Except.error e) ↔
        ∃ f ∈ frags, bareIndexOutOfRange track_list f = true) := by
  intro frags
  induction frags with
  | nil =>
    intro acc _
    constructor
    · rintro ⟨e, he⟩; simp [List.foldlM_nil, pure, Except.pure] at he
    · rintro ⟨f, hf, _⟩; simp at hf
  | cons f fs ih =>
    intro acc h
    have hsf := h f (List.mem_cons_self f fs)
    have hfs : ∀ g ∈ fs, isSimpleIndexFragment g = true :=
      fun g hg => h g (List.mem_cons_of_mem f hg)
    rcases resolveIndexFragment_classify track_list f hsf with
      ⟨hoor, herr⟩ | ⟨hoor, ts, hok⟩
    · constructor
      · intro _
        exact ⟨f, List.mem_cons_self f fs, hoor⟩
      · intro _
        refine ⟨SelectError.indexError, ?_⟩
        rw [List.foldlM_cons]
        have hstep : indexFragmentStep track_list acc f =
            Except.error SelectError.indexError := by
          unfold indexFragmentStep; rw [herr]
        rw [hstep]
        simp [Bind.bind, Except.bind]
    · have hstep : indexFragmentStep track_list acc f =
          Except.ok (acc ++ ts) := by
        unfold indexFragmentStep; rw [hok]
      constructor
      · rintro ⟨e, he⟩
        rw [List.foldlM_cons, hstep] at he
        simp only [Bind.bind, Except.bind] at he
        rcases (ih (acc ++ ts) hfs).mp ⟨e, he⟩ with ⟨g, hg, hgo⟩
        exact ⟨g, List.mem_cons_of_mem f hg, hgo⟩
      · rintro ⟨g, hg, hgo⟩
        have hg2 : g ∈ fs := by
          cases hg with
          | head => rw [hoor] at hgo; cases hgo
          | tail _ hmem => exact hmem
        rcases (ih (acc ++ ts) hfs).mpr ⟨g, hg2, hgo⟩ with ⟨e, he⟩
        refine ⟨e, ?_⟩
        rw [List.foldlM_cons, hstep]
        simp only [Bind.bind, Except.bind]
        exact he

/-- C10 amended: for any selector accepted by the index-list pattern whose
comma-separated fragments are all simple (one bare index or one `start:end`
slice each), selection hard-fails exactly when some bare index fragment is
out of range for its (type-filtered) sub-list; in particular out-of-range
slice bounds never fail — they are clamped (negative bounds wrapping), so an
out-of-range slice just yields the in-range tracks.  Index-list fragments
that are concatenations of several items (e.g. `1:2:3`) also hard-fail, which
is why the simplicity restriction is required. -/
theorem c10_amended_slice_bounds_safe (E : ExprEval) (track_list : List Track)
    (sel : String) (hmatch : commaPatternMatches sel = true)
    (hsimple : ∀ f ∈ pySplitChar ',' sel.toList, isSimpleIndexFragment f = true) :
    ((∃ e, select_tracks_from_list E track_list (some sel) = Except.error e) ↔
      ∃ f ∈ pySplitChar ',' sel.toList,
        bareIndexOutOfRange track_list f = true) := by
  have hn1 : sel ≠ "none" := by rintro rfl; exact absurd hmatch (by decide)
  have hn2 : sel ≠ "" := by rintro rfl; exact absurd hmatch (by decide)
  have hn3 : sel ≠ "all" := by rintro rfl; exact absurd hmatch (by decide)
  have hdisp : select_tracks_from_list E track_list (some sel) =
      selectByIndexList track_list sel := by
    simp only [select_tracks_from_list]
    rw [if_neg (by simp [hn1, hn2]), if_neg hn3, if_pos hmatch]
  rw [hdisp]
  have hiff := indexFold_error_iff track_list (pySplitChar ',' sel.toList) []
    hsimple
  unfold selectByIndexList
  cases hfold : (pySplitChar ',' sel.toList).foldlM
      (indexFragmentStep track_list) ([] : List Track) with
  | error e =>
    exact iff_of_true ⟨e, rfl⟩ (hiff.mp ⟨e, hfold⟩)
  | ok indexed =>
    refine iff_of_false ?_ ?_
    · rintro ⟨e, he⟩; cases he
    · intro hr
      rcases hiff.mpr hr with ⟨e, he⟩
      rw [hfold] at he
      cases he

/-- Witness for C10 at a concrete input: `v:0,1,a-5:9` is all-simple (one
slice, one bare index, one slice), so the theorem's equivalence applies; no
bare fragment is out of range, hence selection does not fail. -/
theorem c10_witness :
    (∃ e, select_tracks_from_list pythonEval [w0, w1, w2, w3]
        (some "v:0,1,a-5:9") = Except.error e) ↔
      ∃ f ∈ pySplitChar ',' ("v:0,1,a-5:9").toList,
        bareIndexOutOfRange [w0, w1, w2, w3] f = true :=
  c10_amended_slice_bounds_safe pythonEval [w0, w1, w2, w3] "v:0,1,a-5:9"
    (by decide) (by decide)

/-- C1: evaluation of `_assign_default_flags` at the claim's failing input.
For two English audio tracks where the first is marked commentary (by its
disposition flag) and the second has no disqualifying flag or name, the code
sets `Default := True` on the commentary track and `Default := False` on the
second — the opposite of the claim and of the method's own docstring.  The
cause: the source's `else` arm belongs to the alternate-tracking `if`, so for
a commentary (non-HI, non-compatibility) track it overwrites the just-stored
`Default: False` with `not default_found` and marks the default as found. -/
theorem c1_code_behavior_at_failing_input :
    (assign_default_flags c1Job).map
        (fun j => (get_track_options j mt1, get_track_options j mt2)) =
      Except.ok
        ([(TrackOption.Default, OptionValue.bool true)],
          [(TrackOption.Default, OptionValue.bool false)]) := by
  decide

/-- C8: appending a track already present in the track order fails with the
duplicate-track error, and removing a track not present fails with the
not-found error; both checks precede any mutation, so the returned value is
the error alone and the job is untouched. -/
theorem c8_duplicate_add_and_missing_remove_fail (job : MuxJob) (t : Track)
    (options : Option (List (TrackOption × OptionValue)))
    (cleanup_track_options cleanup_container_options : Bool) :
    (t ∈ job.track_order →
      append_track job t options = Except.error (MuxError.duplicateTrack t)) ∧
      (t ∉ job.track_order →
        remove_track job t cleanup_track_options cleanup_container_options =
          Except.error (MuxError.trackNotFound t)) := by
  constructor
  · intro hmem
    unfold append_track is_track_referenced
    rw [if_pos]
    exact List.elem_eq_true_of_mem hmem
  · intro hmem
    unfold remove_track is_track_referenced
    rw [if_pos]
    simp only [Bool.not_eq_true', ← Bool.not_eq_true]
    intro hc
    exact hmem (List.mem_of_elem_eq_true hc)

/-- Witness for C8 at concrete inputs: re-adding the only track of a one-track
job fails with the duplicate error, and removing a track from an empty job
fails with the not-found error. -/
theorem c8_witness :
    (append_track ⟨"o", [], [], [], [mt1]⟩ mt1 none =
        Except.error (MuxError.duplicateTrack mt1)) ∧
      (remove_track ⟨"o", [], [], [], []⟩ mt2 true true =
        Except.error (MuxError.trackNotFound mt2)) :=
  ⟨(c8_duplicate_add_and_missing_remove_fail ⟨"o", [], [], [], [mt1]⟩ mt1
      none true true).1 (by decide),
    (c8_duplicate_add_and_missing_remove_fail ⟨"o", [], [], [], []⟩ mt2
      none true true).2 (by decide)⟩

/-- C4 counterexample: for a job whose only track stores the boolean
`Default` option before the string `Name` option, the generator emits
`--default-track-flag` before `--track-name` — the stored (insertion) order,
not the claimed canonical kind order (string options first, then boolean,
then unary). -/
theorem c4_counterexample :
    generate_command_arguments c4Job =
        Except.ok ["--output", "out.mkv", "--no-video", "--audio-tracks",
          "0", "--default-track-flag", "0:1", "--track-name", "0:Stereo",
          "--no-subtitles", "in.mkv", "--track-order", "0:0"] ∧
      generate_command_arguments c4Job ≠
        Except.ok ["--output", "out.mkv", "--no-video", "--audio-tracks",
          "0", "--track-name", "0:Stereo", "--default-track-flag", "0:1",
          "--no-subtitles", "in.mkv", "--track-order", "0:0"] := by
  decide

/-- C5 counterexample: a job with a video track and an attachment track from
the same container generates a different argument vector than the same job
without the attachment — the attachment still contributes its `0:1` entry to
the final `--track-order` value. -/
theorem c5_counterexample :
    generate_command_arguments c5JobA =
        Except.ok ["--output", "out.mkv", "--video-tracks", "0", "--no-audio",
          "--no-subtitles", "in.mkv", "--track-order", "0:0,0:1"] ∧
      generate_command_arguments (without_attachment_tracks c5JobA) =
        Except.ok ["--output", "out.mkv", "--video-tracks", "0", "--no-audio",
          "--no-subtitles", "in.mkv", "--track-order", "0:0"] ∧
      generate_command_arguments c5JobA ≠
        generate_command_arguments (without_attachment_tracks c5JobA) := by
  decide

theorem dictFind_isSome_iff_mem_keys {κ ν : Type} [DecidableEq κ] :
    ∀ (d : List (κ × ν)) (k : κ),
      (dictFind d k).isSome = true ↔ k ∈ d.map Prod.fst := by
  intro d
  induction d with
  | nil => intro k; simp [dictFind]
  | cons kv rest ih =>
    intro k
    by_cases h : kv.1 = k
    · subst h
      simp [dictFind]
    · have hfind : dictFind (kv :: rest) k = dictFind rest k := by
        cases kv
        simp only [dictFind]
        rw [if_neg h]
      rw [hfind, ih k]
      simp [h, Ne.symm h]

theorem dictInsert_keys_of_found {κ ν : Type} [DecidableEq κ] :
    ∀ (d : List (κ × ν)) (k : κ) (v : ν), (dictFind d k).isSome = true →
      (dictInsert d k v).map Prod.fst = d.map Prod.fst := by
  intro d
  induction d with
  | nil => intro k v h; simp [dictFind] at h
  | cons kv rest ih =>
    intro k v h
    cases kv with
    | mk k2 v2 =>
      by_cases he : k2 = k
      · simp [dictInsert, he]
      · have h2 : (dictFind rest k).isSome = true := by
          simpa [dictFind, he] using h
        simp [dictInsert, he, ih k v h2]

theorem contains_eq_false_of_find_none {ν : Type}
    {d : List (ContainerRef × ν)} {c : ContainerRef}
    (hf : dictFind d c = none) : (d.map Prod.fst).contains c = false := by
  cases hcc : (d.map Prod.fst).contains c with
  | false => rfl
  | true =>
    have hm := List.mem_of_elem_eq_true hcc
    have := (dictFind_isSome_iff_mem_keys d c).mpr hm
    rw [hf] at this
    cases this

theorem groupFold_keys :
    ∀ (order : List Track) (acc groups : List (ContainerRef × List Track)),
      order.foldlM groupStep acc = Except.ok groups →
      groups.map Prod.fst = order.foldl firstAppearanceFold (acc.map Prod.fst) := by
  intro order
  induction order with
  | nil =>
    intro acc groups h
    simp only [List.foldlM_nil, pure, Except.pure, Except.ok.injEq] at h
    subst h
    simp
  | cons t ts ih =>
    intro acc groups h
    rw [List.foldlM_cons] at h
    cases hc : t.container with
    | none =>
      rw [show groupStep acc t = Except.error (MuxError.noParentContainer t)
        from by simp [groupStep, hc]] at h
      simp [Bind.bind, Except.bind] at h
    | some c =>
      cases hf : dictFind acc c with
      | none =>
        rw [show groupStep acc t = Except.ok (acc ++ [(c, [t])])
          from by simp [groupStep, hc, hf]] at h
        simp only [Bind.bind, Except.bind] at h
        rw [ih _ _ h, List.foldl_cons]
        congr 1
        have hcont := contains_eq_false_of_find_none hf
        rw [List.map_append]
        simp only [firstAppearanceFold, hc]
        rw [if_neg (by rw [hcont]; simp)]
        simp
      | some ts0 =>
        rw [show groupStep acc t = Except.ok (dictInsert acc c (ts0 ++ [t]))
          from by simp [groupStep, hc, hf]] at h
        simp only [Bind.bind, Except.bind] at h
        rw [ih _ _ h, List.foldl_cons]
        congr 1
        have hsome : (dictFind acc c).isSome = true := by rw [hf]; rfl
        have hmem : c ∈ acc.map Prod.fst :=
          (dictFind_isSome_iff_mem_keys acc c).mp hsome
        have hcont : (acc.map Prod.fst).contains c = true :=
          List.elem_eq_true_of_mem hmem
        rw [dictInsert_keys_of_found acc c _ hsome]
        simp only [firstAppearanceFold, hc]
        rw [if_pos hcont]

theorem groupFold_keys_nodup :
    ∀ (order : List Track) (acc groups : List (ContainerRef × List Track)),
      (acc.map Prod.fst).Nodup →
      order.foldlM groupStep acc = Except.ok groups →
      (groups.map Prod.fst).Nodup := by
  intro order
  induction order with
  | nil =>
    intro acc groups hn h
    simp only [List.foldlM_nil, pure, Except.pure, Except.ok.injEq] at h
    subst h
    exact hn
  | cons t ts ih =>
    intro acc groups hn h
    rw [List.foldlM_cons] at h
    cases hc : t.container with
    | none =>
      rw [show groupStep acc t = Except.error (MuxError.noParentContainer t)
        from by simp [groupStep, hc]] at h
      simp [Bind.bind, Except.bind] at h
    | some c =>
      cases hf : dictFind acc c with
      | none =>
        rw [show groupStep acc t = Except.ok (acc ++ [(c, [t])])
          from by simp [groupStep, hc, hf]] at h
        simp only [Bind.bind, Except.bind] at h
        refine ih _ _ ?_ h
        rw [List.map_append]
        refine List.Nodup.append hn (List.nodup_singleton c) ?_
        intro x hx hx2
        simp only [List.map_cons, List.map_nil, List.mem_singleton] at hx2
        subst hx2
        have := (dictFind_isSome_iff_mem_keys acc x).mpr hx
        rw [hf] at this
        cases this
      | some ts0 =>
        rw [show groupStep acc t = Except.ok (dictInsert acc c (ts0 ++ [t]))
          from by simp [groupStep, hc, hf]] at h
        simp only [Bind.bind, Except.bind] at h
        refine ih _ _ ?_ h
        have hsome : (dictFind acc c).isSome = true := by rw [hf]; rfl
        rw [dictInsert_keys_of_found acc c _ hsome]
        exact hn

theorem containerOrder_foldl_of_nodup :
    ∀ (groups : List (ContainerRef × List Track)) (acc : List ContainerRef),
      (acc ++ groups.map Prod.fst).Nodup →
      groups.foldl containerOrderStep acc = acc ++ groups.map Prod.fst := by
  intro groups
  induction groups with
  | nil => intro acc _; simp
  | cons g gs ih =>
    intro acc hn
    have hnotmem : g.1 ∉ acc := by
      intro hmem
      rw [List.nodup_append] at hn
      exact hn.2.2 hmem (List.mem_cons_self g.1 (gs.map Prod.fst))
    have hcont : acc.contains g.1 = false := by
      cases hcc : acc.contains g.1 with
      | false => rfl
      | true => exact absurd (List.mem_of_elem_eq_true hcc) hnotmem
    rw [List.foldl_cons]
    rw [show containerOrderStep acc g = acc ++ [g.1] from by
      unfold containerOrderStep
      rw [if_neg (by rw [hcont]; simp)]]
    have hn2 : ((acc ++ [g.1]) ++ List.map Prod.fst gs).Nodup := by
      rw [List.append_assoc]
      exact hn
    rw [ih (acc ++ [g.1]) hn2]
    simp

theorem containerOrderOf_eq_keys (groups : List (ContainerRef × List Track))
    (h : (groups.map Prod.fst).Nodup) :
    containerOrderOf groups = groups.map Prod.fst := by
  have := containerOrder_foldl_of_nodup groups [] (by simpa using h)
  simpa [containerOrderOf] using this

theorem trackOrderPairs_fold_spec (corder : List ContainerRef) :
    ∀ (order : List Track) (acc : List String),
      (∀ t ∈ order, t.container ≠ none) →
      order.foldlM (trackOrderPairStep corder) acc =
        Except.ok (acc ++ order.map (specTrackOrderPair corder)) := by
  intro order
  induction order with
  | nil => intro acc _; simp [List.foldlM_nil, pure, Except.pure]
  | cons t ts ih =>
    intro acc h
    cases hc : t.container with
    | none => exact absurd hc (h t (List.mem_cons_self t ts))
    | some c =>
      rw [List.foldlM_cons]
      rw [show trackOrderPairStep corder acc t =
        Except.ok (acc ++ [toString (listIndexOf corder c) ++ ":" ++
          toString t.index]) from by simp [trackOrderPairStep, hc]]
      simp only [Bind.bind, Except.bind]
      rw [ih _ (fun u hu => h u (List.mem_cons_of_mem t hu))]
      simp [specTrackOrderPair, hc]

/-- C3: on any successful generation, the argument vector ends with the
literal `--track-order` followed by the single comma-joined value holding,
for each track of the job's track order, `"<containerRank>:<trackIndex>"`
where the rank is the 0-based position of the first appearance of the track's
container among the containers of the track order. -/
theorem c3_track_order_suffix (job : MuxJob) (args : List String)
    (hbound : ∀ t ∈ job.track_order, t.container ≠ none)
    (h : generate_command_arguments job = Except.ok args) :
    ∃ pre, args = pre ++ ["--track-order",
      commaJoin (job.track_order.map
        (specTrackOrderPair (firstAppearanceContainers job.track_order)))] := by
  unfold generate_command_arguments at h
  cases h1 : generate_output_arguments job with
  | error e => rw [h1] at h; simp at h
  | ok outArgs =>
    rw [h1] at h
    simp only [] at h
    cases h2 : tracks_by_container job.track_order with
    | error e => rw [h2] at h; simp at h
    | ok groups =>
      rw [h2] at h
      simp only [] at h
      cases h3 : groups.foldlM (commandGroupStep job) [] with
      | error e => rw [h3] at h; simp at h
      | ok midArgs =>
        rw [h3] at h
        simp only [] at h
        have hkeys : groups.map Prod.fst =
            firstAppearanceContainers job.track_order := by
          simpa [firstAppearanceContainers] using
            groupFold_keys job.track_order [] groups h2
        have hnodup : (groups.map Prod.fst).Nodup :=
          groupFold_keys_nodup job.track_order [] groups (by simp) h2
        have hco : containerOrderOf groups =
            firstAppearanceContainers job.track_order := by
          rw [containerOrderOf_eq_keys groups hnodup, hkeys]
        have h4 : trackOrderPairs job.track_order (containerOrderOf groups) =
            Except.ok (job.track_order.map
              (specTrackOrderPair (containerOrderOf groups))) := by
          simpa [trackOrderPairs] using
            trackOrderPairs_fold_spec (containerOrderOf groups)
              job.track_order [] hbound
        rw [h4] at h
        simp only [Except.ok.injEq] at h
        refine ⟨outArgs ++ midArgs, ?_⟩
        rw [← h, hco]

/-- Witness for C3 at a concrete input: the one-track job's vector ends with
`--track-order` and the pair `0:0`. -/
theorem c3_witness :
    ∃ pre, ["--output", "out.mkv", "--no-video", "--audio-tracks", "0",
      "--default-track-flag", "0:1", "--track-name", "0:Stereo",
      "--no-subtitles", "in.mkv", "--track-order", "0:0"] = pre ++
      ["--track-order", commaJoin (c4Job.track_order.map
        (specTrackOrderPair (firstAppearanceContainers c4Job.track_order)))] :=
  c3_track_order_suffix c4Job _ (by decide) (by decide)

theorem formatTrackOption_ok_spec {o : TrackOption} {v : OptionValue}
    {t : Track} {args : List String}
    (h : formatTrackOption o v t = Except.ok args) :
    args = specFormatTrackOption t.index o v := by
  cases o <;> cases v <;>
    simp_all [formatTrackOption, trackOptionKind, trackOptionFlagName,
      specFormatTrackOption]

theorem optionFold_spec (t : Track) :
    ∀ (opts : List (TrackOption × OptionValue)) (acc out : List String),
      opts.foldlM (optionArgsStep t) acc = Except.ok out →
      out = acc ++ opts.foldr
        (fun ov acc2 => specFormatTrackOption t.index ov.1 ov.2 ++ acc2) [] := by
  intro opts
  induction opts with
  | nil =>
    intro acc out h
    simp only [List.foldlM_nil, pure, Except.pure, Except.ok.injEq] at h
    simp [← h]
  | cons ov ovs ih =>
    intro acc out h
    rw [List.foldlM_cons] at h
    cases hf : formatTrackOption ov.1 ov.2 t with
    | error e =>
      rw [show optionArgsStep t acc ov = Except.error e
        from by simp [optionArgsStep, hf]] at h
      simp [Bind.bind, Except.bind] at h
    | ok args =>
      rw [show optionArgsStep t acc ov = Except.ok (acc ++ args)
        from by simp [optionArgsStep, hf]] at h
      simp only [Bind.bind, Except.bind] at h
      rw [ih _ _ h, formatTrackOption_ok_spec hf]
      simp

theorem generate_track_arguments_spec {job : MuxJob} {t : Track}
    {out : List String} (h : generate_track_arguments job t = Except.ok out) :
    out = specTrackOptionArgs job t := by
  have := optionFold_spec t (get_track_options job t) [] out
    (by simpa [generate_track_arguments] using h)
  simpa [specTrackOptionArgs] using this

theorem bucketFold_spec (job : MuxJob) :
    ∀ (bucket : List Track) (acc out : List String),
      bucket.foldlM (trackArgsStep job) acc = Except.ok out →
      out = acc ++ bucket.foldr
        (fun t acc2 => specTrackOptionArgs job t ++ acc2) [] := by
  intro bucket
  induction bucket with
  | nil =>
    intro acc out h
    simp only [List.foldlM_nil, pure, Except.pure, Except.ok.injEq] at h
    simp [← h]
  | cons t rest ih =>
    intro acc out h
    rw [List.foldlM_cons] at h
    cases hf : generate_track_arguments job t with
    | error e =>
      rw [show trackArgsStep job acc t = Except.error e
        from by simp [trackArgsStep, hf]] at h
      simp [Bind.bind, Except.bind] at h
    | ok targs =>
      rw [show trackArgsStep job acc t = Except.ok (acc ++ targs)
        from by simp [trackArgsStep, hf]] at h
      simp only [Bind.bind, Except.bind] at h
      rw [ih _ _ h, generate_track_arguments_spec hf]
      simp

theorem generate_bucket_arguments_spec {job : MuxJob} {ts : List Track}
    {tt : TrackType} {b : List String}
    (hne : (bucketOf ts tt).isEmpty = false)
    (h : generate_bucket_arguments job ts tt = Except.ok b) :
    b = specBucketArguments job ts tt := by
  unfold generate_bucket_arguments at h
  rw [if_neg (by rw [hne]; simp)] at h
  cases hfold : (bucketOf ts tt).foldlM (trackArgsStep job) [] with
  | error e => rw [hfold] at h; simp at h
  | ok optArgs =>
    rw [hfold] at h
    simp only [Except.ok.injEq] at h
    have hspec := bucketFold_spec job (bucketOf ts tt) [] optArgs hfold
    rw [← h]
    unfold specBucketArguments
    rw [hspec]
    simp

theorem commandFold_prefix (job : MuxJob) :
    ∀ (gs : List (ContainerRef × List Track)) (acc mid : List String),
      gs.foldlM (commandGroupStep job) acc = Except.ok mid →
      ∃ suffix, mid = acc ++ suffix := by
  intro gs
  induction gs with
  | nil =>
    intro acc mid h
    simp only [List.foldlM_nil, pure, Except.pure, Except.ok.injEq] at h
    exact ⟨[], by simp [← h]⟩
  | cons g rest ih =>
    intro acc mid h
    rw [List.foldlM_cons] at h
    cases hg : generate_group_arguments job g with
    | error e =>
      rw [show commandGroupStep job acc g = Except.error e
        from by simp [commandGroupStep, hg]] at h
      simp [Bind.bind, Except.bind] at h
    | ok gargs =>
      rw [show commandGroupStep job acc g = Except.ok (acc ++ gargs)
        from by simp [commandGroupStep, hg]] at h
      simp only [Bind.bind, Except.bind] at h
      rcases ih _ _ h with ⟨suffix, hs⟩
      exact ⟨gargs ++ suffix, by simp [hs]⟩

theorem groupsFold_mem (job : MuxJob) :
    ∀ (gs : List (ContainerRef × List Track)) (acc mid : List String)
      (g : ContainerRef × List Track),
      gs.foldlM (commandGroupStep job) acc = Except.ok mid → g ∈ gs →
      ∃ gargs X Y, generate_group_arguments job g = Except.ok gargs ∧
        mid = X ++ gargs ++ Y := by
  intro gs
  induction gs with
  | nil => intro acc mid g _ hmem; simp at hmem
  | cons g0 rest ih =>
    intro acc mid g h hmem
    rw [List.foldlM_cons] at h
    cases hg0 : generate_group_arguments job g0 with
    | error e =>
      rw [show commandGroupStep job acc g0 = Except.error e
        from by simp [commandGroupStep, hg0]] at h
      simp [Bind.bind, Except.bind] at h
    | ok g0args =>
      rw [show commandGroupStep job acc g0 = Except.ok (acc ++ g0args)
        from by simp [commandGroupStep, hg0]] at h
      simp only [Bind.bind, Except.bind] at h
      cases hmem with
      | head =>
        rcases commandFold_prefix job rest (acc ++ g0args) mid h with ⟨s, hs⟩
        exact ⟨g0args, acc, s, hg0, by simp [hs]⟩
      | tail _ hmem2 => exact ih _ _ g h hmem2

theorem groupArgs_decompose {job : MuxJob} {g : ContainerRef × List Track}
    {gargs : List String}
    (h : generate_group_arguments job g = Except.ok gargs) :
    ∃ bv ba bs,
      generate_bucket_arguments job g.2 TrackType.video = Except.ok bv ∧
      generate_bucket_arguments job g.2 TrackType.audio = Except.ok ba ∧
      generate_bucket_arguments job g.2 TrackType.subtitle = Except.ok bs ∧
      gargs = bv ++ ba ++ bs ++ generate_container_arguments job g.1 := by
  unfold generate_group_arguments at h
  cases hv : generate_bucket_arguments job g.2 TrackType.video with
  | error e =>
    simp [bucketTypes, List.foldlM_cons, groupBucketStep, hv, Bind.bind,
      Except.bind] at h
  | ok bv =>
    cases ha : generate_bucket_arguments job g.2 TrackType.audio with
    | error e =>
      simp [bucketTypes, List.foldlM_cons, groupBucketStep, hv, ha, Bind.bind,
        Except.bind] at h
    | ok ba =>
      cases hs : generate_bucket_arguments job g.2 TrackType.subtitle with
      | error e =>
        simp [bucketTypes, List.foldlM_cons, groupBucketStep, hv, ha, hs,
          Bind.bind, Except.bind] at h
      | ok bs =>
        have hfold : bucketTypes.foldlM (groupBucketStep job g.2) [] =
            Except.ok ((([] ++ bv) ++ ba) ++ bs) := by
          simp [bucketTypes, List.foldlM_cons, List.foldlM_nil,
            groupBucketStep, hv, ha, hs, Bind.bind, Except.bind, pure,
            Except.pure]
        rw [hfold] at h
        simp only [Except.ok.injEq] at h
        exact ⟨bv, ba, bs, rfl, rfl, rfl, by rw [← h]; simp⟩

/-- C4 amended: on any successful generation, every non-empty type bucket of
every container group contributes a contiguous block of the argument vector
holding the bucket's select flag, the comma-joined original track indices,
and then, for each bucketed track, its accumulated options in stored
(insertion) order — not sorted by kind — each formatted as the claim's table
prescribes (string options as `flag index:value`, boolean options as
`flag index:0|1`, unary options as the flag alone). -/
theorem c4_amended_bucket_arguments (job : MuxJob) (args : List String)
    (groups : List (ContainerRef × List Track)) (c : ContainerRef)
    (ts : List Track) (tt : TrackType)
    (hgen : generate_command_arguments job = Except.ok args)
    (hgroups : tracks_by_container job.track_order = Except.ok groups)
    (hmem : (c, ts) ∈ groups) (htt : tt ∈ bucketTypes)
    (hne : (bucketOf ts tt).isEmpty = false) :
    ∃ X Y, args = X ++ specBucketArguments job ts tt ++ Y := by
  unfold generate_command_arguments at hgen
  cases h1 : generate_output_arguments job with
  | error e => rw [h1] at hgen; simp at hgen
  | ok outArgs =>
    rw [h1] at hgen
    simp only [] at hgen
    rw [hgroups] at hgen
    simp only [] at hgen
    cases h3 : groups.foldlM (commandGroupStep job) [] with
    | error e => rw [h3] at hgen; simp at hgen
    | ok midArgs =>
      rw [h3] at hgen
      simp only [] at hgen
      cases h4 : trackOrderPairs job.track_order (containerOrderOf groups) with
      | error e => rw [h4] at hgen; simp at hgen
      | ok pairs =>
        rw [h4] at hgen
        simp only [Except.ok.injEq] at hgen
        rcases groupsFold_mem job groups [] midArgs (c, ts) h3 hmem with
          ⟨gargs, X1, Y1, hgg, hmid⟩
        rcases groupArgs_decompose hgg with ⟨bv, ba, bs, hv, ha, hsb, hdec⟩
        have httc : tt = TrackType.video ∨ tt = TrackType.audio ∨
            tt = TrackType.subtitle := by
          simpa [bucketTypes] using htt
        rcases httc with rfl | rfl | rfl
        · have hspec := generate_bucket_arguments_spec hne hv
          refine ⟨outArgs ++ X1, ba ++ bs ++
            generate_container_arguments job c ++ Y1 ++
            ["--track-order", commaJoin pairs], ?_⟩
          rw [← hgen, hmid, hdec, ← hspec]
          simp [List.append_assoc]
        · have hspec := generate_bucket_arguments_spec hne ha
          refine ⟨outArgs ++ X1 ++ bv, bs ++
            generate_container_arguments job c ++ Y1 ++
            ["--track-order", commaJoin pairs], ?_⟩
          rw [← hgen, hmid, hdec, ← hspec]
          simp [List.append_assoc]
        · have hspec := generate_bucket_arguments_spec hne hsb
          refine ⟨outArgs ++ X1 ++ bv ++ ba,
            generate_container_arguments job c ++ Y1 ++
            ["--track-order", commaJoin pairs], ?_⟩
          rw [← hgen, hmid, hdec, ← hspec]
          simp [List.append_assoc]

/-- Witness for C4 at a concrete input: the audio bucket of the one-track job
appears contiguously in the generated vector, options in stored order. -/
theorem c4_witness :
    ∃ X Y, ["--output", "out.mkv", "--no-video", "--audio-tracks", "0",
        "--default-track-flag", "0:1", "--track-name", "0:Stereo",
        "--no-subtitles", "in.mkv", "--track-order", "0:0"] =
      X ++ specBucketArguments c4Job [c4Track] TrackType.audio ++ Y :=
  c4_amended_bucket_arguments c4Job _ [(mc, [c4Track])] mc [c4Track]
    TrackType.audio (by decide) (by decide) (by decide) (by decide) (by decide)

theorem bucketOf_filter_nonAttachment (ts : List Track) (tt : TrackType)
    (h : tt ≠ TrackType.attachment) :
    bucketOf (ts.filter (fun t => !(t.type == TrackType.attachment))) tt =
      bucketOf ts tt := by
  induction ts with
  | nil => rfl
  | cons t rest ih =>
    simp only [bucketOf] at ih ⊢
    by_cases ha : t.type = TrackType.attachment
    · have h2 : (t.type == tt) = false := by
        rw [beq_eq_false_iff_ne, ha]
        exact Ne.symm h
      have h1 : (t.type == TrackType.attachment) = true := by simp [ha]
      simp [List.filter_cons, h1, h2, ih]
    · have h1 : (t.type == TrackType.attachment) = false := by
        rw [beq_eq_false_iff_ne]
        exact ha
      by_cases hb : t.type = tt
      · have h2 : (t.type == tt) = true := by simp [hb]
        simp [List.filter_cons, h1, h2, ih]
      · have h2 : (t.type == tt) = false := by
          rw [beq_eq_false_iff_ne]
          exact hb
        simp [List.filter_cons, h1, h2, ih]

theorem trackArgsStep_without (job : MuxJob) :
    trackArgsStep (without_attachment_tracks job) = trackArgsStep job :=
  rfl

theorem generate_output_arguments_without (job : MuxJob) :
    generate_output_arguments (without_attachment_tracks job) =
      generate_output_arguments job :=
  rfl

theorem generate_container_arguments_without (job : MuxJob) (c : ContainerRef) :
    generate_container_arguments (without_attachment_tracks job) c =
      generate_container_arguments job c :=
  rfl

theorem generate_bucket_arguments_without (job : MuxJob) (ts : List Track)
    (tt : TrackType) (h : tt ≠ TrackType.attachment) :
    generate_bucket_arguments (without_attachment_tracks job)
        (ts.filter (fun t => !(t.type == TrackType.attachment))) tt =
      generate_bucket_arguments job ts tt := by
  unfold generate_bucket_arguments
  rw [bucketOf_filter_nonAttachment ts tt h, trackArgsStep_without]

theorem generate_group_arguments_without (job : MuxJob)
    (g : ContainerRef × List Track) :
    generate_group_arguments (without_attachment_tracks job)
        (g.1, g.2.filter (fun t => !(t.type == TrackType.attachment))) =
      generate_group_arguments job g := by
  have hv := generate_bucket_arguments_without job g.2 TrackType.video
    (by decide)
  have ha := generate_bucket_arguments_without job g.2 TrackType.audio
    (by decide)
  have hs := generate_bucket_arguments_without job g.2 TrackType.subtitle
    (by decide)
  unfold generate_group_arguments
  simp only [bucketTypes, List.foldlM_cons, List.foldlM_nil, groupBucketStep,
    hv, ha, hs, generate_container_arguments_without]

theorem commandFold_without (job : MuxJob) :
    ∀ (groups : List (ContainerRef × List Track)) (acc : List String),
      (groups.map (fun g =>
          (g.1, g.2.filter (fun t => !(t.type == TrackType.attachment))))).foldlM
        (commandGroupStep (without_attachment_tracks job)) acc =
      groups.foldlM (commandGroupStep job) acc := by
  intro groups
  induction groups with
  | nil => intro acc; rfl
  | cons g gs ih =>
    intro acc
    simp only [List.map_cons, List.foldlM_cons]
    rw [show commandGroupStep (without_attachment_tracks job) acc
        (g.1, g.2.filter (fun t => !(t.type == TrackType.attachment))) =
      commandGroupStep job acc g from by
        unfold commandGroupStep
        rw [generate_group_arguments_without job g]]
    cases hstep : commandGroupStep job acc g with
    | error e => simp [Bind.bind, Except.bind]
    | ok next =>
      simp only [Bind.bind, Except.bind]
      exact ih next

theorem containerOrder_foldl_map
    (f : List Track → List Track) :
    ∀ (groups : List (ContainerRef × List Track)) (acc : List ContainerRef),
      (groups.map (fun g => (g.1, f g.2))).foldl containerOrderStep acc =
        groups.foldl containerOrderStep acc := by
  intro groups
  induction groups with
  | nil => intro acc; rfl
  | cons g gs ih =>
    intro acc
    simp only [List.map_cons, List.foldl_cons]
    rw [show containerOrderStep acc (g.1, f g.2) = containerOrderStep acc g
      from rfl]
    exact ih _

theorem containerOrderOf_map_filter (groups : List (ContainerRef × List Track)) :
    containerOrderOf (groups.map (fun g =>
        (g.1, g.2.filter (fun t => !(t.type == TrackType.attachment))))) =
      containerOrderOf groups := by
  unfold containerOrderOf
  exact containerOrder_foldl_map _ groups []

/-- C5 amended: attachment tracks never enter any type bucket, so — provided
removing them leaves every container group in place (same containers, same
first-appearance order, with the attachments dropped from each group's track
list) — the argument vector of the attachment-free job is identical up to and
including every source container's arguments, and differs only in the final
`--track-order` value, which simply omits the attachments'
`container:index` entries. -/
theorem c5_amended_attachments_only_affect_track_order (job : MuxJob)
    (args : List String) (groups : List (ContainerRef × List Track))
    (hgroups : tracks_by_container job.track_order = Except.ok groups)
    (hkeep : tracks_by_container (without_attachment_tracks job).track_order =
      Except.ok (groups.map (fun g =>
        (g.1, g.2.filter (fun t => !(t.type == TrackType.attachment))))))
    (hbound : ∀ t ∈ job.track_order, t.container ≠ none)
    (hgen : generate_command_arguments job = Except.ok args) :
    ∃ pre,
      args = pre ++ ["--track-order", commaJoin (job.track_order.map
        (specTrackOrderPair (containerOrderOf groups)))] ∧
      generate_command_arguments (without_attachment_tracks job) =
        Except.ok (pre ++ ["--track-order", commaJoin
          ((job.track_order.filter
            (fun t => !(t.type == TrackType.attachment))).map
            (specTrackOrderPair (containerOrderOf groups)))]) := by
  have h4 : trackOrderPairs job.track_order (containerOrderOf groups) =
      Except.ok (job.track_order.map
        (specTrackOrderPair (containerOrderOf groups))) := by
    simpa [trackOrderPairs] using
      trackOrderPairs_fold_spec (containerOrderOf groups) job.track_order []
        hbound
  have hbound2 : ∀ t ∈ job.track_order.filter
      (fun t => !(t.type == TrackType.attachment)), t.container ≠ none :=
    fun t ht => hbound t (List.mem_of_mem_filter ht)
  have h5 : trackOrderPairs (job.track_order.filter
      (fun t => !(t.type == TrackType.attachment)))
      (containerOrderOf groups) =
      Except.ok ((job.track_order.filter
        (fun t => !(t.type == TrackType.attachment))).map
        (specTrackOrderPair (containerOrderOf groups))) := by
    simpa [trackOrderPairs] using
      trackOrderPairs_fold_spec (containerOrderOf groups) _ [] hbound2
  unfold generate_command_arguments at hgen
  cases h1 : generate_output_arguments job with
  | error e => rw [h1] at hgen; simp at hgen
  | ok outArgs =>
    rw [h1] at hgen
    simp only [] at hgen
    rw [hgroups] at hgen
    simp only [] at hgen
    cases h3 : groups.foldlM (commandGroupStep job) [] with
    | error e => rw [h3] at hgen; simp at hgen
    | ok midArgs =>
      rw [h3] at hgen
      simp only [] at hgen
      rw [h4] at hgen
      simp only [Except.ok.injEq] at hgen
      refine ⟨outArgs ++ midArgs, ?_, ?_⟩
      · rw [← hgen]
      · unfold generate_command_arguments
        rw [generate_output_arguments_without, h1]
        simp only []
        rw [hkeep]
        simp only []
        rw [commandFold_without job groups [], h3]
        simp only []
        rw [show (without_attachment_tracks job).track_order =
          job.track_order.filter (fun t => !(t.type == TrackType.attachment))
          from rfl]
        rw [containerOrderOf_map_filter groups, h5]

/-- Witness for C5 at a concrete input: for the video+attachment job, the
shared prefix is the whole vector minus the final track-order value, and the
attachment-free job's vector ends with `0:0` alone. -/
theorem c5_witness :
    ∃ pre,
      ["--output", "out.mkv", "--video-tracks", "0", "--no-audio",
        "--no-subtitles", "in.mkv", "--track-order", "0:0,0:1"] = pre ++
        ["--track-order", commaJoin (c5JobA.track_order.map
          (specTrackOrderPair (containerOrderOf [(mc, [c5Video, c5Att])])))] ∧
      generate_command_arguments (without_attachment_tracks c5JobA) =
        Except.ok (pre ++ ["--track-order", commaJoin
          ((c5JobA.track_order.filter
            (fun t => !(t.type == TrackType.attachment))).map
            (specTrackOrderPair (containerOrderOf [(mc, [c5Video, c5Att])])))]) :=
  c5_amended_attachments_only_affect_track_order c5JobA _
    [(mc, [c5Video, c5Att])] (by decide) (by decide) (by decide) (by decide)

end SpgillMedia
